import Mathlib

/-!
VoxelEngine: voxel access and extended blocks, prototype levels, item stacks, `utf8`

A shallow embedding of `src/voxels/blocks_agent.hpp` (namespace `blocks_agent`), of the
level enum of `src/world/generator/WorldGenerator.hpp` with the generator operations
modelled from the spec (namespace `world_generator`), of `src/items/ItemStack.cpp`
(namespace `item_stack`) and of `src/logic/scripting/lua/libs/libutf8.cpp` (namespace
`libutf8`). The notes below are on `blocks_agent`.

* World coordinates are `int32_t`; they are embedded as `Int` (signed overflow is
  undefined behaviour in the source, coordinates are taken inside the range).
* `CHUNK_W`, `CHUNK_H`, `CHUNK_D` (constants.hpp) and `BlockRotProfile::MAX_COUNT`
  (Block.hpp) are not part of the excerpt; they are parameters, bundled in `Constants`.
* A `voxel*` returned by `get` is embedded by the voxel it points to; the address it
  stands for is `(chunk_coord, voxel_index)`.
* Exceptions and null dereferences are explicit: a mutating call returns an
  `Outcome`, the storage as the call leaves it together with the fault, if any.
-/

namespace blocks_agent

/-- Integer vector (`glm::ivec3`). -/
structure ivec3 where
  x : Int
  y : Int
  z : Int
deriving DecidableEq, Repr

instance : Add ivec3 := ⟨fun a b => ⟨a.x + b.x, a.y + b.y, a.z + b.z⟩⟩
instance : Sub ivec3 := ⟨fun a b => ⟨a.x - b.x, a.y - b.y, a.z - b.z⟩⟩

/-- Vector times scalar (`rotation.axisX * sx`). -/
def ivec3.scale (a : ivec3) (s : Int) : ivec3 := ⟨a.x * s, a.y * s, a.z * s⟩

/-- Compile-time constants of the engine that the excerpt does not define. -/
structure Constants where
  CHUNK_W : Int
  CHUNK_H : Int
  CHUNK_D : Int
  MAX_COUNT : Nat
deriving DecidableEq, Repr

/-- Modelled from the spec: the declaration of `blockstate` (voxel.hpp) is missing. The
spec describes it as packing a rotation index, a segment code (0 for the logical origin)
and engine-specific flags; `{}` is the all-zero state. The spec gives no field widths, so
the fields are natural numbers and a stored index is not truncated. -/
structure blockstate where
  rotation : Nat
  segment : Nat
  userbits : Nat
deriving DecidableEq, Repr

/-- Modelled from the spec: the declaration of `voxel` (voxel.hpp) is missing; a voxel is
a block id and a state. -/
structure voxel where
  id : Nat
  state : blockstate
deriving DecidableEq, Repr

/-- The value-initialised state `{}`. -/
def blockstate.zero : blockstate := ⟨0, 0, 0⟩

/-- Modelled from the spec: `Chunk` (Chunk.hpp) is missing. A chunk owns a fixed-size voxel
array, indexed here by the integer the source computes, and a modified/unsaved flag. -/
structure Chunk where
  voxels : Int → voxel
  modified : Bool

/-- One rotation variant: the three axis vectors (`def.rotations.variants[i]`). -/
structure BlockRotation where
  axisX : ivec3
  axisY : ivec3
  axisZ : ivec3
deriving DecidableEq, Repr

/-- Rotation profile (`def.rotations`). -/
structure BlockRotProfile where
  variants : Nat → BlockRotation

/-- Runtime part of a block definition (`def.rt`). -/
structure BlockRt where
  id : Nat
  extended : Bool
  solid : Bool
deriving DecidableEq, Repr

/-- Modelled from the spec: `Block` (Block.hpp) is missing; the fields are those the
spec lists as consumed by this layer. -/
structure Block where
  size : ivec3
  rotations : BlockRotProfile
  rotatable : Bool
  replaceable : Bool
  rt : BlockRt

/-- Chunk storage capability: `getChunk(cx, cz)` and the block table reached through
`getContentIndices().blocks` (`none` for an unknown id). -/
structure Storage where
  getChunk : Int → Int → Option Chunk
  blocks : Nat → Option Block

/-- Ways a call can end other than by returning. -/
inductive Fault where
  | voxel_not_found
  | unknown_block
  | null_deref
  | assertion
  | out_of_fuel
deriving DecidableEq, Repr

deriving instance DecidableEq for Except

/-- Result of a mutating call: the storage as the call leaves it, and the fault that
ended it (`none` when it returned). -/
structure Outcome where
  chunks : Storage
  fault : Option Fault

/-- Modelled from the spec: `floordiv` (maths/voxmaths.hpp) is missing; the spec gives it
as floor division, rounding toward negative infinity. -/
def floordiv (b a : Int) : Int := Int.fdiv a b

/-- Chunk coordinate of a world column, as computed in `get`. -/
def chunk_coord (K : Constants) (x z : Int) : Int × Int :=
  (floordiv K.CHUNK_W x, floordiv K.CHUNK_D z)

/-- Index into `chunk->voxels`, as computed in `get`. -/
def voxel_index (K : Constants) (x y z : Int) : Int :=
  let cx := floordiv K.CHUNK_W x
  let cz := floordiv K.CHUNK_D z
  let lx := x - cx * K.CHUNK_W
  let lz := z - cz * K.CHUNK_D
  (y * K.CHUNK_D + lz) * K.CHUNK_W + lx

/-- The function `get_chunk`. -/
def get_chunk (chunks : Storage) (cx cz : Int) : Option Chunk :=
  chunks.getChunk cx cz

/-- The function `get`: the voxel at a world position, `none` for a null pointer. -/
def get (K : Constants) (chunks : Storage) (x y z : Int) : Option voxel :=
  if y < 0 ∨ y ≥ K.CHUNK_H then
    none
  else
    let cx := floordiv K.CHUNK_W x
    let cz := floordiv K.CHUNK_D z
    match get_chunk chunks cx cz with
    | none => none
    | some chunk =>
      let lx := x - cx * K.CHUNK_W
      let lz := z - cz * K.CHUNK_D
      some (chunk.voxels ((y * K.CHUNK_D + lz) * K.CHUNK_W + lx))

/-- The function `require`: throws when `get` returns null. The second component is the
storage as the call leaves it. -/
def require (K : Constants) (chunks : Storage) (x y z : Int) : Except Fault voxel × Storage :=
  match get K chunks x y z with
  | none => (.error Fault.voxel_not_found, chunks)
  | some vox => (.ok vox, chunks)

/-- Block table lookup `blocks.require(id)`: throws on an unknown id. -/
def require_block (chunks : Storage) (id : Nat) : Except Fault Block :=
  match chunks.blocks id with
  | none => .error Fault.unknown_block
  | some d => .ok d

/-- Storage with the chunk at `(cx, cz)` replaced. -/
def Storage.setChunk (chunks : Storage) (cx cz : Int) (chunk : Chunk) : Storage :=
  ⟨fun a b => if a = cx ∧ b = cz then some chunk else chunks.getChunk a b, chunks.blocks⟩

/-- Assignment `*vox = v` through the pointer `vox = get(chunks, x, y, z)`; nothing is
written when that pointer is null. -/
def store (K : Constants) (chunks : Storage) (x y z : Int) (v : voxel) : Storage :=
  if y < 0 ∨ y ≥ K.CHUNK_H then
    chunks
  else
    let cx := floordiv K.CHUNK_W x
    let cz := floordiv K.CHUNK_D z
    match get_chunk chunks cx cz with
    | none => chunks
    | some chunk =>
      let lx := x - cx * K.CHUNK_W
      let lz := z - cz * K.CHUNK_D
      chunks.setChunk cx cz
        ⟨Function.update chunk.voxels ((y * K.CHUNK_D + lz) * K.CHUNK_W + lx) v, chunk.modified⟩

/-- The sequence `chunk = get_chunk(chunks, cx, cz); assert(chunk != nullptr);
chunk->setModifiedAndUnsaved();`. -/
def setModifiedAndUnsaved (chunks : Storage) (cx cz : Int) : Outcome :=
  match get_chunk chunks cx cz with
  | none => ⟨chunks, some Fault.assertion⟩
  | some chunk => ⟨chunks.setChunk cx cz ⟨chunk.voxels, true⟩, none⟩

/-- Modelled from the spec: `set` is only declared in blocks_agent.hpp, its body is
missing. The spec: it writes the id and state through to the owning chunk if that chunk
is loaded, marks that chunk modified, and does nothing when there is no such cell. -/
def set (K : Constants) (chunks : Storage) (x y z : Int) (id : Nat) (state : blockstate) :
    Storage :=
  match get K chunks x y z with
  | none => chunks
  | some _ =>
    (setModifiedAndUnsaved (store K chunks x y z ⟨id, state⟩)
      (floordiv K.CHUNK_W x) (floordiv K.CHUNK_D z)).chunks

/-- The function `segment_to_int`. -/
def segment_to_int (sx sy sz : Int) : Nat :=
  (if sx > 0 then 1 else 0) ||| ((if sy > 0 then 1 else 0) <<< 1)
    ||| ((if sz > 0 then 1 else 0) <<< 2)

/-- Local offsets `(sx, sy, sz)` in the order the three nested loops visit them:
`sy` outermost, then `sz`, then `sx`, each from 0 below the matching size. -/
def offsets (size : ivec3) : List ivec3 :=
  (List.range size.y.toNat).flatMap fun (sy : Nat) =>
    (List.range size.z.toNat).flatMap fun (sz : Nat) =>
      (List.range size.x.toNat).map fun (sx : Nat) => ivec3.mk sx sy sz

/-- The loop body `pos = origin; pos += axisX * sx; pos += axisY * sy; pos += axisZ * sz`. -/
def segment_pos (origin : ivec3) (rotation : BlockRotation) (s : ivec3) : ivec3 :=
  origin + rotation.axisX.scale s.x + rotation.axisY.scale s.y + rotation.axisZ.scale s.z

/-- The `while (true)` loop of `seek_origin`; every iteration takes one unit of fuel and
`none` means the fuel ran out. -/
def seek_origin_loop (K : Constants) (chunks : Storage) (rotation : BlockRotation) :
    Nat → ivec3 → Nat → Option ivec3
  | 0, _, _ => none
  | fuel + 1, pos, segment =>
    if segment = 0 then
      some pos
    else
      let pos1 := if segment &&& 1 ≠ 0 then pos - rotation.axisX else pos
      let pos2 := if segment &&& 2 ≠ 0 then pos1 - rotation.axisY else pos1
      let pos3 := if segment &&& 4 ≠ 0 then pos2 - rotation.axisZ else pos2
      match get K chunks pos3.x pos3.y pos3.z with
      | some vox => seek_origin_loop K chunks rotation fuel pos3 vox.state.segment
      | none => some pos3

/-- The function `seek_origin`. -/
def seek_origin (K : Constants) (chunks : Storage) (fuel : Nat) (srcpos : ivec3) (d : Block)
    (state : blockstate) : Option ivec3 :=
  seek_origin_loop K chunks (d.rotations.variants state.rotation) fuel srcpos state.segment

/-- The nested loops of `check_replaceability` over the remaining offsets. -/
def check_cells (K : Constants) (chunks : Storage) (rotation : BlockRotation) (origin : ivec3)
    (ignore : Nat) : List ivec3 → Except Fault Bool
  | [] => .ok true
  | s :: rest =>
    let pos := segment_pos origin rotation s
    match get K chunks pos.x pos.y pos.z with
    | some vox =>
      match require_block chunks vox.id with
      | .error e => .error e
      | .ok target =>
        if !target.replaceable && vox.id != ignore then
          .ok false
        else
          check_cells K chunks rotation origin ignore rest
    | none => .ok false

/-- The function `check_replaceability`. -/
def check_replaceability (K : Constants) (chunks : Storage) (d : Block) (state : blockstate)
    (origin : ivec3) (ignore : Nat) : Except Fault Bool :=
  check_cells K chunks (d.rotations.variants state.rotation) origin ignore (offsets d.size)

/-- State of the first loop nest of `set_rotation_extended`. -/
structure WriteState where
  chunks : Storage
  segmentBlocks : List ivec3
  fault : Option Fault

/-- First loop nest of `set_rotation_extended`: writes the new footprint. -/
def write_segments (K : Constants) (d : Block) (newstate : blockstate) (origin : ivec3)
    (rotation : BlockRotation) : List ivec3 → Storage → List ivec3 → WriteState
  | [], chunks, segmentBlocks => ⟨chunks, segmentBlocks, none⟩
  | s :: rest, chunks, segmentBlocks =>
    let pos := segment_pos origin rotation s
    let segState : blockstate :=
      ⟨newstate.rotation, segment_to_int s.x s.y s.z, newstate.userbits⟩
    match get K chunks pos.x pos.y pos.z with
    | none => ⟨chunks, segmentBlocks, some Fault.null_deref⟩
    | some vox =>
      if vox.id ≠ d.rt.id then
        write_segments K d newstate origin rotation rest
          (set K chunks pos.x pos.y pos.z d.rt.id segState) segmentBlocks
      else
        let chunks1 := store K chunks pos.x pos.y pos.z ⟨vox.id, segState⟩
        match setModifiedAndUnsaved chunks1 (floordiv K.CHUNK_W pos.x)
            (floordiv K.CHUNK_D pos.z) with
        | ⟨chunks2, some e⟩ => ⟨chunks2, segmentBlocks, some e⟩
        | ⟨chunks2, none⟩ =>
          write_segments K d newstate origin rotation rest chunks2 (segmentBlocks ++ [pos])

/-- Second loop nest of `set_rotation_extended`: clears the cells of the previous
footprint that are not listed in `segmentBlocks`. -/
def clear_segments (K : Constants) (origin : ivec3) (prevRotation : BlockRotation)
    (segmentBlocks : List ivec3) : List ivec3 → Storage → Storage
  | [], chunks => chunks
  | s :: rest, chunks =>
    let pos := segment_pos origin prevRotation s
    if pos ∉ segmentBlocks then
      clear_segments K origin prevRotation segmentBlocks rest
        (set K chunks pos.x pos.y pos.z 0 blockstate.zero)
    else
      clear_segments K origin prevRotation segmentBlocks rest chunks

/-- The function `set_rotation_extended`. -/
def set_rotation_extended (K : Constants) (chunks : Storage) (d : Block) (state : blockstate)
    (origin : ivec3) (index : Nat) : Outcome :=
  let newstate : blockstate := ⟨index, state.segment, state.userbits⟩
  match check_replaceability K chunks d newstate origin d.rt.id with
  | .error e => ⟨chunks, some e⟩
  | .ok false => ⟨chunks, none⟩
  | .ok true =>
    let rotation := d.rotations.variants index
    match write_segments K d newstate origin rotation (offsets d.size) chunks [] with
    | ⟨chunks1, _, some e⟩ => ⟨chunks1, some e⟩
    | ⟨chunks1, segmentBlocks, none⟩ =>
      let prevRotation := d.rotations.variants state.rotation
      ⟨clear_segments K origin prevRotation segmentBlocks (offsets d.size) chunks1, none⟩

/-- The function `set_rotation`; `fuel` bounds the loop of `seek_origin`. -/
def set_rotation (K : Constants) (fuel : Nat) (chunks : Storage) (x y z : Int) (index : Nat) :
    Outcome :=
  if index ≥ K.MAX_COUNT then
    ⟨chunks, none⟩
  else
    match get K chunks x y z with
    | none => ⟨chunks, none⟩
    | some vox =>
      match require_block chunks vox.id with
      | .error e => ⟨chunks, some e⟩
      | .ok d =>
        if !d.rotatable || vox.state.rotation == index then
          ⟨chunks, none⟩
        else if d.rt.extended then
          match seek_origin K chunks fuel ⟨x, y, z⟩ d vox.state with
          | none => ⟨chunks, some Fault.out_of_fuel⟩
          | some origin =>
            match get K chunks origin.x origin.y origin.z with
            | none => ⟨chunks, some Fault.null_deref⟩
            | some vox1 => set_rotation_extended K chunks d vox1.state origin index
        else
          let chunks1 := store K chunks x y z
            ⟨vox.id, ⟨index, vox.state.segment, vox.state.userbits⟩⟩
          setModifiedAndUnsaved chunks1 (floordiv K.CHUNK_W x) (floordiv K.CHUNK_D z)

/-- The nested loops of `erase_segments` over the remaining offsets; the offset
`(0, 0, 0)` is skipped by the test `(sx | sy | sz) == 0`. -/
def erase_cells (K : Constants) (origin : ivec3) (rotation : BlockRotation) :
    List ivec3 → Storage → Storage
  | [], chunks => chunks
  | s :: rest, chunks =>
    if Int.lor (Int.lor s.x s.y) s.z = 0 then
      erase_cells K origin rotation rest chunks
    else
      let pos := segment_pos origin rotation s
      erase_cells K origin rotation rest (set K chunks pos.x pos.y pos.z 0 blockstate.zero)

/-- The function `erase_segments`. -/
def erase_segments (K : Constants) (chunks : Storage) (d : Block) (state : blockstate)
    (x y z : Int) : Storage :=
  erase_cells K ⟨x, y, z⟩ (d.rotations.variants state.rotation) (offsets d.size) chunks

/-- The nested loops of `repair_segments` over the remaining offsets. -/
def repair_cells (K : Constants) (id : Nat) (state : blockstate) (origin : ivec3)
    (rotation : BlockRotation) : List ivec3 → Storage → Storage
  | [], chunks => chunks
  | s :: rest, chunks =>
    if Int.lor (Int.lor s.x s.y) s.z = 0 then
      repair_cells K id state origin rotation rest chunks
    else
      let segState : blockstate := ⟨state.rotation, segment_to_int s.x s.y s.z, state.userbits⟩
      let pos := segment_pos origin rotation s
      repair_cells K id state origin rotation rest (set K chunks pos.x pos.y pos.z id segState)

/-- The function `repair_segments`. -/
def repair_segments (K : Constants) (chunks : Storage) (d : Block) (state : blockstate)
    (x y z : Int) : Storage :=
  repair_cells K d.rt.id state ⟨x, y, z⟩ (d.rotations.variants state.rotation)
    (offsets d.size) chunks

/-- The loop of `seek_origin` with a counter of the backward steps taken (one step is one
pass through the three conditional subtractions); it returns the position together with
the number of steps. -/
def seek_origin_count (K : Constants) (chunks : Storage) (rotation : BlockRotation) :
    Nat → ivec3 → Nat → Nat → Option (ivec3 × Nat)
  | 0, _, _, _ => none
  | fuel + 1, pos, segment, steps =>
    if segment = 0 then
      some (pos, steps)
    else
      let pos1 := if segment &&& 1 ≠ 0 then pos - rotation.axisX else pos
      let pos2 := if segment &&& 2 ≠ 0 then pos1 - rotation.axisY else pos1
      let pos3 := if segment &&& 4 ≠ 0 then pos2 - rotation.axisZ else pos2
      match get K chunks pos3.x pos3.y pos3.z with
      | some vox => seek_origin_count K chunks rotation fuel pos3 vox.state.segment (steps + 1)
      | none => some (pos3, steps + 1)

/-- A sequence of `set` calls, in order. -/
def set_cells (K : Constants) : List (ivec3 × voxel) → Storage → Storage
  | [], chunks => chunks
  | e :: rest, chunks =>
    set_cells K rest (set K chunks e.1.x e.1.y e.1.z e.2.id e.2.state)

/-! ## Predicates used in the statements -/

/-- Dot product of two integer vectors. -/
def ivec3.dot (a b : ivec3) : Int := a.x * b.x + a.y * b.y + a.z * b.z

/-- The three axes of a rotation are mutually orthogonal signed unit vectors. -/
def BlockRotation.orthonormal (r : BlockRotation) : Prop :=
  r.axisX.dot r.axisX = 1 ∧ r.axisY.dot r.axisY = 1 ∧ r.axisZ.dot r.axisZ = 1 ∧
  r.axisX.dot r.axisY = 0 ∧ r.axisX.dot r.axisZ = 0 ∧ r.axisY.dot r.axisZ = 0

instance (r : BlockRotation) : Decidable r.orthonormal := by
  unfold BlockRotation.orthonormal
  infer_instance

/-- The cells of a footprint: the positions the loop nests visit from `origin` under
`rotation` for a block of the given size. -/
def footprint (origin : ivec3) (rotation : BlockRotation) (size : ivec3) : List ivec3 :=
  (offsets size).map (segment_pos origin rotation)

/-- A well-formed extended block of definition `d` stored under block id `id` with origin
`origin` and rotation `rot`: every cell of the footprint is loaded and holds the id, the
common rotation and the segment code `segment_to_int` of its offset. -/
def well_formed (K : Constants) (chunks : Storage) (d : Block) (id : Nat) (rot : Nat)
    (origin : ivec3) : Prop :=
  ∀ s ∈ offsets d.size,
    ∃ vox ∈ get K chunks (segment_pos origin (d.rotations.variants rot) s).x
        (segment_pos origin (d.rotations.variants rot) s).y
        (segment_pos origin (d.rotations.variants rot) s).z,
      vox.id = id ∧ vox.state.rotation = rot ∧
        vox.state.segment = segment_to_int s.x s.y s.z

instance (K : Constants) (chunks : Storage) (d : Block) (id : Nat) (rot : Nat)
    (origin : ivec3) : Decidable (well_formed K chunks d id rot origin) := by
  unfold well_formed
  infer_instance

/-- The offsets of a footprint other than `(0, 0, 0)`. -/
def segment_offsets (size : ivec3) : List ivec3 :=
  (offsets size).filter fun s => decide (s ≠ ⟨0, 0, 0⟩)

/-- The segment cells of a footprint: every cell but the one at offset `(0, 0, 0)`. -/
def segment_cells (origin : ivec3) (rotation : BlockRotation) (size : ivec3) : List ivec3 :=
  (segment_offsets size).map (segment_pos origin rotation)

/-- Every cell of the footprint is loaded. -/
def footprint_loaded (K : Constants) (chunks : Storage) (origin : ivec3)
    (rotation : BlockRotation) (size : ivec3) : Prop :=
  ∀ q ∈ footprint origin rotation size, (get K chunks q.x q.y q.z).isSome = true

instance (K : Constants) (chunks : Storage) (origin : ivec3) (rotation : BlockRotation)
    (size : ivec3) : Decidable (footprint_loaded K chunks origin rotation size) := by
  unfold footprint_loaded
  infer_instance

/-- The segment codes of a footprint are laid out as `repair_segments` writes them around
an origin with segment code 0: every cell is loaded and holds the segment code
`segment_to_int` of its offset. -/
def segments_laid (K : Constants) (chunks : Storage) (origin : ivec3)
    (rotation : BlockRotation) (size : ivec3) : Prop :=
  ∀ s ∈ offsets size,
    ∃ vox ∈ get K chunks (segment_pos origin rotation s).x (segment_pos origin rotation s).y
        (segment_pos origin rotation s).z,
      vox.state.segment = segment_to_int s.x s.y s.z

instance (K : Constants) (chunks : Storage) (origin : ivec3) (rotation : BlockRotation)
    (size : ivec3) : Decidable (segments_laid K chunks origin rotation size) := by
  unfold segments_laid
  infer_instance

/-! ## A concrete world used to instantiate the theorems

One loaded chunk `(0, 0)` of a 16 x 256 x 16 engine, holding a 2 x 1 x 1 extended block
(id 1) with origin `(5, 0, 5)` and rotation 0; every other cell is empty. -/

/-- Chunk dimensions 16 x 256 x 16 and eight rotation variants. -/
def demo_constants : Constants := ⟨16, 256, 16, 8⟩

/-- Rotation 0: the local axes are the world axes. -/
def demo_rot0 : BlockRotation := ⟨⟨1, 0, 0⟩, ⟨0, 1, 0⟩, ⟨0, 0, 1⟩⟩

/-- Rotation 1: local X points along world +Z. -/
def demo_rot1 : BlockRotation := ⟨⟨0, 0, 1⟩, ⟨0, 1, 0⟩, ⟨-1, 0, 0⟩⟩

/-- Air: id 0, replaceable, a single cell. -/
def demo_air : Block := ⟨⟨1, 1, 1⟩, ⟨fun _ => demo_rot0⟩, false, true, ⟨0, false, false⟩⟩

/-- A rotatable, non-replaceable 2 x 1 x 1 extended block with id 1. -/
def demo_beam : Block :=
  ⟨⟨2, 1, 1⟩, ⟨fun i => if i = 1 then demo_rot1 else demo_rot0⟩, true, false, ⟨1, true, true⟩⟩

/-- A rotatable, non-replaceable single-cell block with id 2. -/
def demo_crate : Block := ⟨⟨1, 1, 1⟩, ⟨fun _ => demo_rot0⟩, true, false, ⟨2, false, true⟩⟩

/-- Block table of the concrete world. -/
def demo_blocks (id : Nat) : Option Block :=
  if id = 0 then some demo_air
  else if id = 1 then some demo_beam
  else if id = 2 then some demo_crate
  else none

/-- Chunk holding the beam at `(5,0,5)`, `(6,0,5)` (indices 85, 86). -/
def demo_chunk : Chunk :=
  ⟨fun i => if i = 85 then ⟨1, ⟨0, 0, 0⟩⟩ else if i = 86 then ⟨1, ⟨0, 1, 0⟩⟩
    else ⟨0, blockstate.zero⟩, false⟩

/-- World with the single chunk `(0, 0)` loaded. -/
def demo_world : Storage :=
  ⟨fun cx cz => if cx = 0 ∧ cz = 0 then some demo_chunk else none, demo_blocks⟩

/-- Chunk with two beams side by side: origins `(5,0,5)` and `(5,0,6)`, both with
rotation 0, so the cells `(5,0,5)`, `(6,0,5)`, `(5,0,6)`, `(6,0,6)` (indices 85, 86, 101,
102) all carry id 1. -/
def demo_chunk_pair : Chunk :=
  ⟨fun i => if i = 85 then ⟨1, ⟨0, 0, 0⟩⟩ else if i = 86 then ⟨1, ⟨0, 1, 0⟩⟩
    else if i = 101 then ⟨1, ⟨0, 0, 0⟩⟩ else if i = 102 then ⟨1, ⟨0, 1, 0⟩⟩
    else ⟨0, blockstate.zero⟩, false⟩

/-- World with the two neighbouring beams. -/
def demo_world_pair : Storage :=
  ⟨fun cx cz => if cx = 0 ∧ cz = 0 then some demo_chunk_pair else none, demo_blocks⟩

/-- Chunk with the beam at `(5,0,5)`, `(6,0,5)` and a crate (id 2) at `(5,0,6)`. -/
def demo_chunk_blocked : Chunk :=
  ⟨fun i => if i = 85 then ⟨1, ⟨0, 0, 0⟩⟩ else if i = 86 then ⟨1, ⟨0, 1, 0⟩⟩
    else if i = 101 then ⟨2, ⟨0, 0, 0⟩⟩ else ⟨0, blockstate.zero⟩, false⟩

/-- World where a crate obstructs the rotation of the beam. -/
def demo_world_blocked : Storage :=
  ⟨fun cx cz => if cx = 0 ∧ cz = 0 then some demo_chunk_blocked else none, demo_blocks⟩

/-- Chunk whose cell `(0, 0, 5)` (index 80) is a segment of a beam with segment code 1:
the origin it points back to, `(-1, 0, 5)`, lies in the chunk `(-1, 0)`. -/
def demo_chunk_edge : Chunk :=
  ⟨fun i => if i = 80 then ⟨1, ⟨0, 1, 0⟩⟩ else ⟨0, blockstate.zero⟩, false⟩

/-- World with the chunk `(0, 0)` loaded and the chunk `(-1, 0)`, which holds the origin of
the beam, not loaded. -/
def demo_world_edge : Storage :=
  ⟨fun cx cz => if cx = 0 ∧ cz = 0 then some demo_chunk_edge else none, demo_blocks⟩

/-- Chunk holding only the origin cell of a beam at `(5, 0, 5)`. -/
def demo_chunk_origin : Chunk :=
  ⟨fun i => if i = 85 then ⟨1, ⟨0, 0, 0⟩⟩ else ⟨0, blockstate.zero⟩, false⟩

/-- World where the beam has its origin cell but not yet its segment. -/
def demo_world_origin : Storage :=
  ⟨fun cx cz => if cx = 0 ∧ cz = 0 then some demo_chunk_origin else none, demo_blocks⟩

end blocks_agent

/-! ## World generator: prototype levels

`WorldGenerator.hpp` declares the level enum and the class; the bodies of `update`,
`generate` and `requirePrototype` (WorldGenerator.cpp) and the Surround Map are not part of
the excerpt. The level enum is embedded from the header; the operations are modelled from
the spec. -/

namespace world_generator

/-- The enum `ChunkPrototypeLevel`. -/
inductive ChunkPrototypeLevel where
  | VOID
  | BIOMES
  | HEIGHTMAP
  | STRUCTURES
deriving DecidableEq, Repr

/-- Enumerator values: `VOID=0`, then in declaration order. -/
def ChunkPrototypeLevel.toNat : ChunkPrototypeLevel → Nat
  | .VOID => 0
  | .BIOMES => 1
  | .HEIGHTMAP => 2
  | .STRUCTURES => 3

/-- The level after a given one; `STRUCTURES` is the last. -/
def ChunkPrototypeLevel.next : ChunkPrototypeLevel → ChunkPrototypeLevel
  | .VOID => .BIOMES
  | .BIOMES => .HEIGHTMAP
  | .HEIGHTMAP => .STRUCTURES
  | .STRUCTURES => .STRUCTURES

/-- Modelled from the spec: the state of `WorldGenerator` that the levels depend on,
WorldGenerator.cpp being missing. The prototype store is a cache keyed by chunk
coordinate (here the level of the stored prototype, `none` when no prototype is stored);
`radius` is the fixed neighbourhood radius of the Surround Map. -/
structure WorldGenerator where
  prototypes : Int × Int → Option ChunkPrototypeLevel
  radius : Nat

/-- Level of the stored prototype of a coordinate, `VOID` when there is none. -/
def level_at (g : WorldGenerator) (c : Int × Int) : ChunkPrototypeLevel :=
  match g.prototypes c with
  | none => .VOID
  | some l => l

/-- Store with the level of one coordinate replaced. -/
def put_level (g : WorldGenerator) (c : Int × Int) (l : ChunkPrototypeLevel) : WorldGenerator :=
  ⟨fun c1 => if c1 = c then some l else g.prototypes c1, g.radius⟩

/-- Modelled from the spec: the neighbours of a coordinate within the radius of the
Surround Map (SurroundMap.hpp is missing). -/
def neighbours (r : Nat) (c : Int × Int) : List (Int × Int) :=
  (List.range (2 * r + 1)).flatMap fun (dx : Nat) =>
    (List.range (2 * r + 1)).map fun (dz : Nat) =>
      (c.1 + (dx : Int) - (r : Int), c.2 + (dz : Int) - (r : Int))

/-- Modelled from the spec: the gate of the Surround Map, which is missing. A chunk is
eligible to advance to level `l` when the minimum level among its neighbours is at least
`l - 1`. -/
def eligible (g : WorldGenerator) (c : Int × Int) (l : ChunkPrototypeLevel) : Bool :=
  (neighbours g.radius c).all fun n => decide (l.toNat ≤ (level_at g n).toNat + 1)

/-- Modelled from the spec: one level transition (`generateBiomes`, `generateHeightmap`
or `generateStructures`, whose bodies are missing). The stored level advances by one when
the chunk is eligible and stays otherwise. -/
def advance (g : WorldGenerator) (c : Int × Int) : WorldGenerator :=
  match level_at g c with
  | .STRUCTURES => g
  | l => if eligible g c l.next then put_level g c l.next else g

/-- Modelled from the spec: `requirePrototype`, whose body is missing. It returns the
prototype of a coordinate, creating it and advancing it through whatever levels are
immediately eligible. -/
def requirePrototype (g : WorldGenerator) (c : Int × Int) : WorldGenerator :=
  let created := match g.prototypes c with
    | none => put_level g c .VOID
    | some _ => g
  advance (advance (advance created c) c) c

/-- Modelled from the spec: `generate`, whose body is missing. It escalates the prototype
of `(x, z)` as far as eligible and materialises the chunk when the prototype has reached
`STRUCTURES`; the boolean tells whether it did. Stored levels of other coordinates are
not touched. -/
def generate (g : WorldGenerator) (x z : Int) : WorldGenerator × Bool :=
  let g1 := requirePrototype g (x, z)
  (g1, decide (level_at g1 (x, z) = .STRUCTURES))

/-- The coordinates of the window of the Surround Map around a centre, row by row. -/
def window (centerX centerY loadDistance : Int) : List (Int × Int) :=
  (List.range (2 * loadDistance + 1).toNat).flatMap fun (dx : Nat) =>
    (List.range (2 * loadDistance + 1).toNat).map fun (dz : Nat) =>
      (centerX + (dx : Int) - loadDistance, centerY + (dz : Int) - loadDistance)

/-- Modelled from the spec: `update`, whose body is missing. It slides the window of the
Surround Map to the new centre and triggers prototype generation for the chunks in range.
The minimum neighbour levels the Surround Map records are computed here from the stored
levels (see `eligible`), so the entries it evicts when the window slides have no state of
their own; the spec names no operation that removes a stored prototype, and none is
modelled. -/
def update (g : WorldGenerator) (centerX centerY loadDistance : Int) : WorldGenerator :=
  (window centerX centerY loadDistance).foldl requirePrototype g

/-- A call of the public interface. -/
inductive Call where
  | update (centerX centerY loadDistance : Int)
  | generate (x z : Int)
deriving DecidableEq, Repr

/-- The generator after one call. -/
def step (g : WorldGenerator) : Call → WorldGenerator
  | .update centerX centerY loadDistance => update g centerX centerY loadDistance
  | .generate x z => (generate g x z).1

/-- A fresh generator with an empty store and neighbourhood radius 0. -/
def demo_generator : WorldGenerator := ⟨fun _ => none, 0⟩

end world_generator

/-! ## Item stacks

`ItemStack.cpp` is embedded; `ItemStack.hpp`, `ItemDef.hpp` and `typedefs.hpp` are not part
of the excerpt. `itemcount_t` is taken as a 32-bit unsigned integer and `int` as a 32-bit
two's-complement integer; `isEmpty()` is a parameter. -/

namespace item_stack

/-- The class `ItemStack`: an item id and a count. -/
structure ItemStack where
  item : Nat
  count : Nat
deriving DecidableEq, Repr

/-- The method `ItemStack::set`. -/
def ItemStack.set (_self : ItemStack) (item : ItemStack) : ItemStack :=
  if item.count = 0 then ⟨0, item.count⟩ else ⟨item.item, item.count⟩

end item_stack

/-! ## The Lua library `utf8`

`libutf8.cpp` is embedded; the Lua API wrappers, `LuaBytearray` and `util::Buffer` are not
part of the excerpt. The contents of a freshly constructed bytearray and of a freshly
allocated buffer are parameters. -/

namespace libutf8

/-- The Lua values the two functions handle; a string is its list of bytes. -/
inductive LuaValue where
  | nil
  | boolean (b : Bool)
  | string (bytes : List Nat)
  | table (items : List Int)
  | bytearray (data : List Nat)
deriving DecidableEq, Repr

/-- The integer `pushinteger` receives for a `char`. -/
def char_to_integer (b : Nat) : Int := if b < 128 then (b : Int) else (b : Int) - 256

/-- The call `memcpy(dst.data(), src.data(), src.length())` on a vector whose size stays as
it is: the leading bytes are replaced. -/
def memcpy (dst src : List Nat) : List Nat :=
  (src ++ dst.drop src.length).take dst.length

/-- The function `l_encode`: `bytearray_new n` is the data of a bytearray constructed with
argument `n`. -/
def l_encode (bytearray_new : Nat → List Nat) (string : List Nat) (asTable : Bool) :
    LuaValue :=
  if asTable then
    .table (string.map char_to_integer)
  else
    .bytearray (memcpy (bytearray_new string.length) string)

/-- The function `l_decode`: `buffer_new n` is the content of a `util::Buffer<char>` of
size `n` right after its construction. -/
def l_decode (buffer_new : Nat → List Nat) (arg : LuaValue) : LuaValue :=
  match arg with
  | .table items =>
    let size := items.length
    .string ((buffer_new size).take size)
  | .bytearray data => .string data
  | other => other

end libutf8

namespace blocks_agent

/-! ## Coordinate translation -/

theorem floordiv_eq_ediv {b : Int} (hb : 0 < b) (a : Int) : floordiv b a = a / b := by
  unfold floordiv
  exact Int.fdiv_eq_ediv a (le_of_lt hb)

theorem local_coord_eq_emod {b : Int} (hb : 0 < b) (a : Int) :
    a - floordiv b a * b = a % b := by
  rw [floordiv_eq_ediv hb, Int.emod_def, mul_comm]

theorem local_coord_bounds {b : Int} (hb : 0 < b) (a : Int) :
    0 ≤ a - floordiv b a * b ∧ a - floordiv b a * b < b := by
  rw [local_coord_eq_emod hb]
  exact ⟨Int.emod_nonneg a (ne_of_gt hb), Int.emod_lt_of_pos a hb⟩

theorem floordiv_mul_add {b : Int} (hb : 0 < b) (q r : Int) (h0 : 0 ≤ r) (h1 : r < b) :
    floordiv b (q * b + r) = q := by
  rw [floordiv_eq_ediv hb, add_comm, Int.add_mul_ediv_right r q (ne_of_gt hb),
    Int.ediv_eq_zero_of_lt h0 h1, zero_add]

theorem mul_add_cancel {b q r q1 r1 : Int} (h0 : 0 ≤ r) (h1 : r < b) (h2 : 0 ≤ r1)
    (h3 : r1 < b) (h : q * b + r = q1 * b + r1) : q = q1 ∧ r = r1 := by
  have hb : 0 < b := lt_of_le_of_lt h0 h1
  have hq : q = q1 := by
    have e1 := floordiv_mul_add hb q r h0 h1
    have e2 := floordiv_mul_add hb q1 r1 h2 h3
    rw [h] at e1
    rw [← e1, e2]
  subst hq
  exact ⟨rfl, by linarith⟩

theorem voxel_index_bounds (K : Constants) (hW : 0 < K.CHUNK_W) (hD : 0 < K.CHUNK_D)
    (x y z : Int) (hy0 : 0 ≤ y) (hy1 : y < K.CHUNK_H) :
    0 ≤ voxel_index K x y z ∧ voxel_index K x y z < K.CHUNK_W * K.CHUNK_H * K.CHUNK_D := by
  obtain ⟨a0, a1⟩ := local_coord_bounds hW x
  obtain ⟨b0, b1⟩ := local_coord_bounds hD z
  simp only [voxel_index]
  have h1 : 0 ≤ y * K.CHUNK_D := mul_nonneg hy0 (le_of_lt hD)
  have h2 : y * K.CHUNK_D + (z - floordiv K.CHUNK_D z * K.CHUNK_D) + 1 ≤
      K.CHUNK_H * K.CHUNK_D := by
    have : (y + 1) * K.CHUNK_D ≤ K.CHUNK_H * K.CHUNK_D :=
      mul_le_mul_of_nonneg_right (by linarith) (le_of_lt hD)
    linarith
  have h3 : (y * K.CHUNK_D + (z - floordiv K.CHUNK_D z * K.CHUNK_D) + 1) * K.CHUNK_W ≤
      K.CHUNK_H * K.CHUNK_D * K.CHUNK_W :=
    mul_le_mul_of_nonneg_right h2 (le_of_lt hW)
  have h4 : 0 ≤ (y * K.CHUNK_D + (z - floordiv K.CHUNK_D z * K.CHUNK_D)) * K.CHUNK_W :=
    mul_nonneg (by linarith) (le_of_lt hW)
  constructor
  · linarith
  · have e : K.CHUNK_W * K.CHUNK_H * K.CHUNK_D = K.CHUNK_H * K.CHUNK_D * K.CHUNK_W := by ring
    rw [e]
    linarith

theorem voxel_address_injective (K : Constants) (hW : 0 < K.CHUNK_W) (hD : 0 < K.CHUNK_D)
    (x y z x1 y1 z1 : Int)
    (hc : chunk_coord K x z = chunk_coord K x1 z1)
    (hi : voxel_index K x y z = voxel_index K x1 y1 z1) :
    x = x1 ∧ y = y1 ∧ z = z1 := by
  simp only [chunk_coord, Prod.mk.injEq] at hc
  obtain ⟨hcx, hcz⟩ := hc
  obtain ⟨a0, a1⟩ := local_coord_bounds hW x
  obtain ⟨b0, b1⟩ := local_coord_bounds hD z
  obtain ⟨c0, c1⟩ := local_coord_bounds hW x1
  obtain ⟨d0, d1⟩ := local_coord_bounds hD z1
  simp only [voxel_index] at hi
  obtain ⟨e1, e2⟩ := mul_add_cancel a0 a1 c0 c1 hi
  obtain ⟨e3, e4⟩ := mul_add_cancel b0 b1 d0 d1 e1
  rw [hcx] at e2
  rw [hcz] at e4
  exact ⟨by linarith, e3, by linarith⟩

theorem get_eq_voxel_index (K : Constants) (chunks : Storage) (x y z : Int) (chunk : Chunk)
    (hy0 : 0 ≤ y) (hy1 : y < K.CHUNK_H)
    (hc : chunks.getChunk (chunk_coord K x z).1 (chunk_coord K x z).2 = some chunk) :
    get K chunks x y z = some (chunk.voxels (voxel_index K x y z)) := by
  simp only [chunk_coord] at hc
  have hy : ¬ (y < 0 ∨ y ≥ K.CHUNK_H) := by omega
  simp only [get, get_chunk, hy, if_false, hc, voxel_index]

/-- C7: the coordinate translation of `get` is a bijection onto chunk cells. For positive
chunk width and depth: the local coordinates lie in `[0, CHUNK_W)` and `[0, CHUNK_D)`; for
`y` in `[0, CHUNK_H)` the index lies in `[0, CHUNK_W * CHUNK_H * CHUNK_D)` and `get` returns
the cell at that index of the loaded chunk at the floor-divided chunk coordinate; two world
positions with the same chunk coordinate and index are equal; and every index of a chunk
is reached by exactly one world position with `y` in `[0, CHUNK_H)`. -/
theorem get_translation_bijective (K : Constants) (chunks : Storage)
    (hW : 0 < K.CHUNK_W) (hD : 0 < K.CHUNK_D) :
    (∀ x y z : Int, 0 ≤ y → y < K.CHUNK_H →
      ∀ chunk, chunks.getChunk (floordiv K.CHUNK_W x) (floordiv K.CHUNK_D z) = some chunk →
        (0 ≤ x - floordiv K.CHUNK_W x * K.CHUNK_W ∧
          x - floordiv K.CHUNK_W x * K.CHUNK_W < K.CHUNK_W) ∧
        (0 ≤ z - floordiv K.CHUNK_D z * K.CHUNK_D ∧
          z - floordiv K.CHUNK_D z * K.CHUNK_D < K.CHUNK_D) ∧
        voxel_index K x y z =
          (y * K.CHUNK_D + (z - floordiv K.CHUNK_D z * K.CHUNK_D)) * K.CHUNK_W
            + (x - floordiv K.CHUNK_W x * K.CHUNK_W) ∧
        (0 ≤ voxel_index K x y z ∧
          voxel_index K x y z < K.CHUNK_W * K.CHUNK_H * K.CHUNK_D) ∧
        get K chunks x y z = some (chunk.voxels (voxel_index K x y z))) ∧
    (∀ x y z x1 y1 z1 : Int,
      chunk_coord K x z = chunk_coord K x1 z1 →
      voxel_index K x y z = voxel_index K x1 y1 z1 →
      x = x1 ∧ y = y1 ∧ z = z1) ∧
    (∀ cx cz i : Int, 0 ≤ i → i < K.CHUNK_W * K.CHUNK_H * K.CHUNK_D →
      ∃! p : ivec3, (0 ≤ p.y ∧ p.y < K.CHUNK_H) ∧
        chunk_coord K p.x p.z = (cx, cz) ∧ voxel_index K p.x p.y p.z = i) := by
  refine ⟨?_, ?_, ?_⟩
  · intro x y z hy0 hy1 chunk hc
    exact ⟨local_coord_bounds hW x, local_coord_bounds hD z, rfl,
      voxel_index_bounds K hW hD x y z hy0 hy1,
      get_eq_voxel_index K chunks x y z chunk hy0 hy1 hc⟩
  · intro x y z x1 y1 z1 hc hi
    exact voxel_address_injective K hW hD x y z x1 y1 z1 hc hi
  · intro cx cz i hi0 hi1
    have hlx0 : 0 ≤ i % K.CHUNK_W := Int.emod_nonneg i (ne_of_gt hW)
    have hlx1 : i % K.CHUNK_W < K.CHUNK_W := Int.emod_lt_of_pos i hW
    have hq0 : 0 ≤ i / K.CHUNK_W := Int.ediv_nonneg hi0 (le_of_lt hW)
    have hq1 : i / K.CHUNK_W < K.CHUNK_H * K.CHUNK_D := by
      apply Int.ediv_lt_of_lt_mul hW
      have e : K.CHUNK_W * K.CHUNK_H * K.CHUNK_D = K.CHUNK_H * K.CHUNK_D * K.CHUNK_W := by ring
      rw [← e]
      exact hi1
    have hlz0 : 0 ≤ (i / K.CHUNK_W) % K.CHUNK_D := Int.emod_nonneg _ (ne_of_gt hD)
    have hlz1 : (i / K.CHUNK_W) % K.CHUNK_D < K.CHUNK_D := Int.emod_lt_of_pos _ hD
    have hy0 : 0 ≤ (i / K.CHUNK_W) / K.CHUNK_D := Int.ediv_nonneg hq0 (le_of_lt hD)
    have hy1 : (i / K.CHUNK_W) / K.CHUNK_D < K.CHUNK_H := Int.ediv_lt_of_lt_mul hD hq1
    have hfx : floordiv K.CHUNK_W (cx * K.CHUNK_W + i % K.CHUNK_W) = cx :=
      floordiv_mul_add hW cx _ hlx0 hlx1
    have hfz : floordiv K.CHUNK_D (cz * K.CHUNK_D + (i / K.CHUNK_W) % K.CHUNK_D) = cz :=
      floordiv_mul_add hD cz _ hlz0 hlz1
    have hex : (0 ≤ (i / K.CHUNK_W) / K.CHUNK_D ∧ (i / K.CHUNK_W) / K.CHUNK_D < K.CHUNK_H) ∧
        chunk_coord K (cx * K.CHUNK_W + i % K.CHUNK_W)
          (cz * K.CHUNK_D + (i / K.CHUNK_W) % K.CHUNK_D) = (cx, cz) ∧
        voxel_index K (cx * K.CHUNK_W + i % K.CHUNK_W) ((i / K.CHUNK_W) / K.CHUNK_D)
          (cz * K.CHUNK_D + (i / K.CHUNK_W) % K.CHUNK_D) = i := by
      refine ⟨⟨hy0, hy1⟩, ?_, ?_⟩
      · simp only [chunk_coord, hfx, hfz]
      · simp only [voxel_index, hfx, hfz]
        have e1 := Int.ediv_add_emod (i / K.CHUNK_W) K.CHUNK_D
        have e2 := Int.ediv_add_emod i K.CHUNK_W
        have e3 : (i / K.CHUNK_W) / K.CHUNK_D * K.CHUNK_D + (i / K.CHUNK_W) % K.CHUNK_D
            = i / K.CHUNK_W := by linarith
        have e4 : i / K.CHUNK_W * K.CHUNK_W + i % K.CHUNK_W = i := by linarith
        have e5 : cz * K.CHUNK_D + (i / K.CHUNK_W) % K.CHUNK_D - cz * K.CHUNK_D
            = (i / K.CHUNK_W) % K.CHUNK_D := by ring
        have e6 : cx * K.CHUNK_W + i % K.CHUNK_W - cx * K.CHUNK_W = i % K.CHUNK_W := by ring
        rw [e5, e6, e3, e4]
    refine ⟨⟨cx * K.CHUNK_W + i % K.CHUNK_W, (i / K.CHUNK_W) / K.CHUNK_D,
      cz * K.CHUNK_D + (i / K.CHUNK_W) % K.CHUNK_D⟩, hex, ?_⟩
    rintro ⟨px, py, pz⟩ ⟨_, hc, hidx⟩
    obtain ⟨_, hc1, hidx1⟩ := hex
    obtain ⟨a, b, c⟩ := voxel_address_injective K hW hD px py pz _ _ _
      (hc.trans hc1.symm) (hidx.trans hidx1.symm)
    rw [a, b, c]

/-- Instance of C7 in the 16 x 256 x 16 world: the cell `(5, 0, 5)` of chunk `(0, 0)`. -/
theorem get_translation_bijective_witness :
    (0 < demo_constants.CHUNK_W ∧ 0 < demo_constants.CHUNK_D) ∧
    get demo_constants demo_world 5 0 5
      = some (demo_chunk.voxels (voxel_index demo_constants 5 0 5)) :=
  ⟨⟨by decide, by decide⟩,
    ((get_translation_bijective demo_constants demo_world (by decide) (by decide)).1 5 0 5
      (by decide) (by decide) demo_chunk rfl).2.2.2.2⟩

/-- C8: `get` returns null exactly when `y` is below 0, or `y` is at least `CHUNK_H`, or
the chunk at the floor-divided chunk coordinate is not loaded. In particular it is null
for every `y` outside `[0, CHUNK_H)` whatever the chunk load state, and inside that range
it is null exactly when `getChunk` is null. -/
theorem get_null_iff (K : Constants) (chunks : Storage) (x y z : Int) :
    get K chunks x y z = none ↔
      (y < 0 ∨ y ≥ K.CHUNK_H ∨
        chunks.getChunk (floordiv K.CHUNK_W x) (floordiv K.CHUNK_D z) = none) := by
  unfold get get_chunk
  by_cases hy : y < 0 ∨ y ≥ K.CHUNK_H
  · simp only [hy, if_true, true_iff]
    rcases hy with h | h
    · exact Or.inl h
    · exact Or.inr (Or.inl h)
  · simp only [hy, if_false]
    cases hc : chunks.getChunk (floordiv K.CHUNK_W x) (floordiv K.CHUNK_D z) with
    | none => simp
    | some c =>
      simp only [reduceCtorEq, false_iff]
      rintro (h | h | h)
      · exact hy (Or.inl h)
      · exact hy (Or.inr h)
      · exact h

/-- C9: `require` fails exactly when `get` returns null, otherwise it returns the voxel
cell `get` returns, and in both cases it leaves the storage as it was. -/
theorem require_iff_get (K : Constants) (chunks : Storage) (x y z : Int) :
    ((∃ e, (require K chunks x y z).1 = .error e) ↔ get K chunks x y z = none) ∧
    (∀ vox, get K chunks x y z = some vox ↔ (require K chunks x y z).1 = .ok vox) ∧
    (require K chunks x y z).2 = chunks := by
  unfold require
  cases h : get K chunks x y z with
  | none => simp
  | some v => simp

/-- C5: an index that is not below `MAX_COUNT` makes `set_rotation` return at once with
the storage, voxels and modified flags alike, unchanged. -/
theorem set_rotation_out_of_range (K : Constants) (fuel : Nat) (chunks : Storage)
    (x y z : Int) (index : Nat) (h : ¬ index < K.MAX_COUNT) :
    set_rotation K fuel chunks x y z index = ⟨chunks, none⟩ := by
  unfold set_rotation
  have h1 : index ≥ K.MAX_COUNT := Nat.le_of_not_lt h
  simp only [h1, if_true]

/-- Instance of C5: index 8 in a world with eight rotation variants. -/
theorem set_rotation_out_of_range_witness :
    ¬ 8 < demo_constants.MAX_COUNT ∧
    set_rotation demo_constants 4 demo_world 5 0 5 8 = ⟨demo_world, none⟩ :=
  ⟨by decide, set_rotation_out_of_range demo_constants 4 demo_world 5 0 5 8 (by decide)⟩

/-! ## Reading after writing -/

theorem getChunk_setChunk (chunks : Storage) (cx cz : Int) (c : Chunk) (a b : Int) :
    (chunks.setChunk cx cz c).getChunk a b =
      if a = cx ∧ b = cz then some c else chunks.getChunk a b := rfl

theorem setChunk_setChunk (chunks : Storage) (cx cz : Int) (c c1 : Chunk) :
    (chunks.setChunk cx cz c).setChunk cx cz c1 = chunks.setChunk cx cz c1 := by
  unfold Storage.setChunk
  simp only [Storage.mk.injEq, and_true]
  funext a b
  by_cases h : a = cx ∧ b = cz
  · simp only [h, and_self, if_true]
  · simp only [h, if_false]

/-- What a non-null `get` says about the storage. -/
theorem get_eq_some (K : Constants) (chunks : Storage) (x y z : Int) (vox : voxel)
    (h : get K chunks x y z = some vox) :
    ¬ (y < 0 ∨ y ≥ K.CHUNK_H) ∧
    ∃ c, chunks.getChunk (floordiv K.CHUNK_W x) (floordiv K.CHUNK_D z) = some c ∧
      vox = c.voxels (voxel_index K x y z) := by
  unfold get get_chunk at h
  by_cases hy : y < 0 ∨ y ≥ K.CHUNK_H
  · simp only [hy, if_true, reduceCtorEq] at h
  · simp only [hy, if_false] at h
    refine ⟨hy, ?_⟩
    cases hc : chunks.getChunk (floordiv K.CHUNK_W x) (floordiv K.CHUNK_D z) with
    | none => simp only [hc, reduceCtorEq] at h
    | some c =>
      simp only [hc, Option.some.injEq] at h
      exact ⟨c, rfl, h.symm⟩

theorem get_of_chunk (K : Constants) (chunks : Storage) (x y z : Int) (c : Chunk)
    (hy : ¬ (y < 0 ∨ y ≥ K.CHUNK_H))
    (hc : chunks.getChunk (floordiv K.CHUNK_W x) (floordiv K.CHUNK_D z) = some c) :
    get K chunks x y z = some (c.voxels (voxel_index K x y z)) := by
  simp only [get, get_chunk, hy, if_false, hc, voxel_index]

theorem store_of_chunk (K : Constants) (chunks : Storage) (x y z : Int) (v : voxel) (c : Chunk)
    (hy : ¬ (y < 0 ∨ y ≥ K.CHUNK_H))
    (hc : chunks.getChunk (floordiv K.CHUNK_W x) (floordiv K.CHUNK_D z) = some c) :
    store K chunks x y z v = chunks.setChunk (floordiv K.CHUNK_W x) (floordiv K.CHUNK_D z)
      ⟨Function.update c.voxels (voxel_index K x y z) v, c.modified⟩ := by
  simp only [store, get_chunk, hy, if_false, hc, voxel_index]

theorem setModifiedAndUnsaved_of_chunk (chunks : Storage) (cx cz : Int) (c : Chunk)
    (hc : chunks.getChunk cx cz = some c) :
    setModifiedAndUnsaved chunks cx cz = ⟨chunks.setChunk cx cz ⟨c.voxels, true⟩, none⟩ := by
  simp only [setModifiedAndUnsaved, get_chunk, hc]

/-- The in-place path (write through the pointer, then mark the chunk) on a loaded cell:
its assertion holds and it leaves the chunk with the cell replaced and the flag set. -/
theorem store_then_modified_of_chunk (K : Constants) (chunks : Storage) (x y z : Int)
    (v : voxel) (c : Chunk) (hy : ¬ (y < 0 ∨ y ≥ K.CHUNK_H))
    (hc : chunks.getChunk (floordiv K.CHUNK_W x) (floordiv K.CHUNK_D z) = some c) :
    setModifiedAndUnsaved (store K chunks x y z v) (floordiv K.CHUNK_W x)
      (floordiv K.CHUNK_D z) =
      ⟨chunks.setChunk (floordiv K.CHUNK_W x) (floordiv K.CHUNK_D z)
        ⟨Function.update c.voxels (voxel_index K x y z) v, true⟩, none⟩ := by
  rw [store_of_chunk K chunks x y z v c hy hc]
  rw [setModifiedAndUnsaved_of_chunk _ _ _
    ⟨Function.update c.voxels (voxel_index K x y z) v, c.modified⟩
    (by simp only [getChunk_setChunk, and_self, if_true])]
  rw [setChunk_setChunk]

theorem set_of_chunk (K : Constants) (chunks : Storage) (x y z : Int) (id : Nat)
    (st : blockstate) (c : Chunk) (hy : ¬ (y < 0 ∨ y ≥ K.CHUNK_H))
    (hc : chunks.getChunk (floordiv K.CHUNK_W x) (floordiv K.CHUNK_D z) = some c) :
    set K chunks x y z id st = chunks.setChunk (floordiv K.CHUNK_W x) (floordiv K.CHUNK_D z)
      ⟨Function.update c.voxels (voxel_index K x y z) ⟨id, st⟩, true⟩ := by
  simp only [set, get_of_chunk K chunks x y z c hy hc,
    store_then_modified_of_chunk K chunks x y z ⟨id, st⟩ c hy hc]

/-- The in-place path leaves the same storage as `set` with the same id and state. -/
theorem store_then_modified (K : Constants) (chunks : Storage) (x y z : Int) (v vox : voxel)
    (h : get K chunks x y z = some vox) :
    setModifiedAndUnsaved (store K chunks x y z v) (floordiv K.CHUNK_W x)
      (floordiv K.CHUNK_D z) = ⟨set K chunks x y z v.id v.state, none⟩ := by
  obtain ⟨hy, c, hc, _⟩ := get_eq_some K chunks x y z vox h
  rw [store_then_modified_of_chunk K chunks x y z v c hy hc,
    set_of_chunk K chunks x y z v.id v.state c hy hc]

/-- A null `get` makes `set` a no-op. -/
theorem set_of_get_none (K : Constants) (chunks : Storage) (x y z : Int) (id : Nat)
    (st : blockstate) (h : get K chunks x y z = none) :
    set K chunks x y z id st = chunks := by
  simp only [set, h]

theorem set_blocks (K : Constants) (chunks : Storage) (x y z : Int) (id : Nat)
    (st : blockstate) : (set K chunks x y z id st).blocks = chunks.blocks := by
  cases h : get K chunks x y z with
  | none => rw [set_of_get_none K chunks x y z id st h]
  | some vox =>
    obtain ⟨hy, c, hc, _⟩ := get_eq_some K chunks x y z vox h
    rw [set_of_chunk K chunks x y z id st c hy hc]
    rfl

/-- Reading the cell just written by `set`. -/
theorem get_set_same (K : Constants) (chunks : Storage) (x y z : Int) (id : Nat)
    (st : blockstate) (vox : voxel) (h : get K chunks x y z = some vox) :
    get K (set K chunks x y z id st) x y z = some ⟨id, st⟩ := by
  obtain ⟨hy, c, hc, _⟩ := get_eq_some K chunks x y z vox h
  rw [set_of_chunk K chunks x y z id st c hy hc]
  rw [get_of_chunk K _ x y z
    ⟨Function.update c.voxels (voxel_index K x y z) ⟨id, st⟩, true⟩ hy
    (by simp only [getChunk_setChunk, and_self, if_true])]
  simp only [Function.update_same]

/-- Reading a cell other than the one `set` wrote. -/
theorem get_set_other (K : Constants) (hW : 0 < K.CHUNK_W) (hD : 0 < K.CHUNK_D)
    (chunks : Storage) (x y z : Int) (id : Nat) (st : blockstate) (x1 y1 z1 : Int)
    (hne : ¬ (x = x1 ∧ y = y1 ∧ z = z1)) :
    get K (set K chunks x y z id st) x1 y1 z1 = get K chunks x1 y1 z1 := by
  cases h : get K chunks x y z with
  | none => rw [set_of_get_none K chunks x y z id st h]
  | some vox =>
    obtain ⟨hy, c, hc, _⟩ := get_eq_some K chunks x y z vox h
    rw [set_of_chunk K chunks x y z id st c hy hc]
    by_cases hy1 : y1 < 0 ∨ y1 ≥ K.CHUNK_H
    · simp only [get, hy1, if_true]
    · by_cases hcc : floordiv K.CHUNK_W x1 = floordiv K.CHUNK_W x ∧
          floordiv K.CHUNK_D z1 = floordiv K.CHUNK_D z
      · have hidx : voxel_index K x1 y1 z1 ≠ voxel_index K x y z := by
          intro hi
          have hcoord : chunk_coord K x1 z1 = chunk_coord K x z := by
            simp only [chunk_coord, hcc.1, hcc.2]
          obtain ⟨a, b, c1⟩ := voxel_address_injective K hW hD x1 y1 z1 x y z hcoord hi
          exact hne ⟨a.symm, b.symm, c1.symm⟩
        rw [get_of_chunk K _ x1 y1 z1
          ⟨Function.update c.voxels (voxel_index K x y z) ⟨id, st⟩, true⟩ hy1
          (by simp only [getChunk_setChunk, hcc, and_self, if_true])]
        rw [get_of_chunk K chunks x1 y1 z1 c hy1 (by rw [hcc.1, hcc.2]; exact hc)]
        simp only [Function.update_noteq hidx]
      · simp only [get, get_chunk, hy1, if_false, getChunk_setChunk, hcc]

/-- Reading after `set`, in one equation. -/
theorem get_set (K : Constants) (hW : 0 < K.CHUNK_W) (hD : 0 < K.CHUNK_D)
    (chunks : Storage) (p : ivec3) (id : Nat) (st : blockstate) (q : ivec3) :
    get K (set K chunks p.x p.y p.z id st) q.x q.y q.z =
      if p = q ∧ (get K chunks p.x p.y p.z).isSome then some ⟨id, st⟩
      else get K chunks q.x q.y q.z := by
  by_cases hpq : p = q
  · subst hpq
    cases h : get K chunks p.x p.y p.z with
    | none => simp [set_of_get_none K chunks p.x p.y p.z id st h, h]
    | some vox => simp [get_set_same K chunks p.x p.y p.z id st vox h]
  · have hne : ¬ (p.x = q.x ∧ p.y = q.y ∧ p.z = q.z) := by
      rintro ⟨a, b, c⟩
      apply hpq
      cases p
      cases q
      simp only at a b c
      rw [a, b, c]
    rw [get_set_other K hW hD chunks p.x p.y p.z id st q.x q.y q.z hne]
    simp [hpq]

/-- C4: single-cell rotation round trip. On a loaded cell holding a rotatable,
non-extended block, `set_rotation` with an index below `MAX_COUNT` returns normally and
the voxel read back by `get` has that index as its rotation. -/
theorem set_rotation_single_roundtrip (K : Constants) (fuel : Nat) (chunks : Storage)
    (x y z : Int) (i : Nat) (vox : voxel) (d : Block)
    (hget : get K chunks x y z = some vox) (hdef : chunks.blocks vox.id = some d)
    (hrot : d.rotatable = true) (hext : d.rt.extended = false) (hi : i < K.MAX_COUNT) :
    (set_rotation K fuel chunks x y z i).fault = none ∧
    ∃ v, get K (set_rotation K fuel chunks x y z i).chunks x y z = some v ∧
      v.state.rotation = i := by
  have hi1 : ¬ i ≥ K.MAX_COUNT := Nat.not_le.mpr hi
  by_cases hsame : vox.state.rotation = i
  · simp only [set_rotation, hi1, if_false, hget, require_block, hdef, hrot, hsame,
      Bool.not_true, Bool.false_or, beq_self_eq_true, if_true, true_and]
    exact ⟨vox, rfl, hsame⟩
  · have hbeq : (vox.state.rotation == i) = false := beq_false_of_ne hsame
    simp only [set_rotation, hi1, if_false, hget, require_block, hdef, hrot, hext, hbeq,
      Bool.not_true, Bool.false_or, Bool.false_eq_true]
    rw [store_then_modified K chunks x y z _ vox hget]
    refine ⟨rfl, _, get_set_same K chunks x y z _ _ vox hget, rfl⟩

/-- Instance of C4: a crate (single cell, id 2) placed at `(3, 0, 3)` of the concrete
world is rotated to index 3. -/
theorem set_rotation_single_roundtrip_witness :
    (get demo_constants (set demo_constants demo_world 3 0 3 2 blockstate.zero) 3 0 3
        = some ⟨2, blockstate.zero⟩ ∧
      demo_blocks 2 = some demo_crate ∧ demo_crate.rotatable = true ∧
      demo_crate.rt.extended = false ∧ 3 < demo_constants.MAX_COUNT) ∧
    ((set_rotation demo_constants 0
        (set demo_constants demo_world 3 0 3 2 blockstate.zero) 3 0 3 3).fault = none ∧
      ∃ v, get demo_constants (set_rotation demo_constants 0
        (set demo_constants demo_world 3 0 3 2 blockstate.zero) 3 0 3 3).chunks 3 0 3 = some v ∧
        v.state.rotation = 3) :=
  ⟨⟨by decide, rfl, rfl, rfl, by decide⟩,
    set_rotation_single_roundtrip demo_constants 0
      (set demo_constants demo_world 3 0 3 2 blockstate.zero) 3 0 3 3 ⟨2, blockstate.zero⟩
      demo_crate (by decide) rfl rfl rfl (by decide)⟩

/-! ## Footprints -/

/-- The offsets visited by the loop nest are those within the size, each component from
0 below the matching size. -/
theorem mem_offsets (size s : ivec3) :
    s ∈ offsets size ↔
      (0 ≤ s.x ∧ s.x < size.x) ∧ (0 ≤ s.y ∧ s.y < size.y) ∧ (0 ≤ s.z ∧ s.z < size.z) := by
  obtain ⟨sx, sy, sz⟩ := s
  simp only [offsets, List.mem_flatMap, List.mem_map, List.mem_range, ivec3.mk.injEq]
  constructor
  · rintro ⟨a, ha, b, hb, c, hc, h1, h2, h3⟩
    omega
  · intro h
    exact ⟨sy.toNat, by omega, sz.toNat, by omega, sx.toNat, by omega, by omega, by omega,
      by omega⟩

/-- The loop of `check_replaceability` accepts exactly when every cell is loaded, carries
a registered id, and is replaceable or carries the ignored id. -/
theorem check_cells_true_iff (K : Constants) (chunks : Storage) (rotation : BlockRotation)
    (origin : ivec3) (ignore : Nat) (l : List ivec3) :
    check_cells K chunks rotation origin ignore l = .ok true ↔
      ∀ s ∈ l, ∃ vox target,
        get K chunks (segment_pos origin rotation s).x (segment_pos origin rotation s).y
          (segment_pos origin rotation s).z = some vox ∧
        chunks.blocks vox.id = some target ∧
        (vox.id = ignore ∨ target.replaceable = true) := by
  induction l with
  | nil => simp [check_cells]
  | cons s rest ih =>
    rw [List.forall_mem_cons, ← ih]
    cases hg : get K chunks (segment_pos origin rotation s).x (segment_pos origin rotation s).y
        (segment_pos origin rotation s).z with
    | none =>
      simp only [check_cells, hg]
      constructor
      · intro h
        cases h
      · rintro ⟨⟨vox, target, h1, _⟩, _⟩
        cases h1
    | some vox =>
      cases hb : chunks.blocks vox.id with
      | none =>
        simp only [check_cells, hg, require_block, hb]
        constructor
        · intro h
          cases h
        · rintro ⟨⟨vox1, target, h1, h2, _⟩, _⟩
          cases h1
          rw [hb] at h2
          cases h2
      | some target =>
        simp only [check_cells, hg, require_block, hb]
        by_cases hc : (!target.replaceable && vox.id != ignore) = true
        · rw [if_pos hc]
          simp only [Bool.and_eq_true, Bool.not_eq_true', bne_iff_ne, ne_eq] at hc
          constructor
          · intro h
            cases h
          · rintro ⟨⟨vox1, target1, h1, h2, h3⟩, _⟩
            cases h1
            rw [hb] at h2
            cases h2
            rcases h3 with h3 | h3
            · exact absurd h3 hc.2
            · rw [hc.1] at h3
              cases h3
        · rw [if_neg hc]
          simp only [Bool.and_eq_true, Bool.not_eq_true', bne_iff_ne, ne_eq, not_and,
            not_not] at hc
          constructor
          · intro h
            refine ⟨⟨vox, target, rfl, hb, ?_⟩, h⟩
            cases hr : target.replaceable with
            | true => exact Or.inr rfl
            | false => exact Or.inl (hc hr)
          · intro h
            exact h.2

/-- When every cell that is loaded carries a registered id, the loop of
`check_replaceability` returns a boolean. -/
theorem check_cells_returns (K : Constants) (chunks : Storage) (rotation : BlockRotation)
    (origin : ivec3) (ignore : Nat) (l : List ivec3)
    (hreg : ∀ s ∈ l, ∀ vox,
      get K chunks (segment_pos origin rotation s).x (segment_pos origin rotation s).y
        (segment_pos origin rotation s).z = some vox → (chunks.blocks vox.id).isSome = true) :
    check_cells K chunks rotation origin ignore l = .ok true ∨
      check_cells K chunks rotation origin ignore l = .ok false := by
  induction l with
  | nil => exact Or.inl rfl
  | cons s rest ih =>
    simp only [check_cells]
    cases hg : get K chunks (segment_pos origin rotation s).x (segment_pos origin rotation s).y
        (segment_pos origin rotation s).z with
    | none => exact Or.inr rfl
    | some vox =>
      have h1 := hreg s (List.mem_cons_self s rest) vox hg
      obtain ⟨target, ht⟩ := Option.isSome_iff_exists.mp h1
      simp only [require_block, ht]
      split
      · exact Or.inr rfl
      · exact ih (fun s1 hs1 => hreg s1 (List.mem_cons_of_mem s hs1))

/-- C6: when the ids stored in the loaded cells of the footprint are registered block
ids, `check_replaceability` returns true if and only if for every offset `(sx, sy, sz)`
within `def.size` the cell `origin + axisX*sx + axisY*sy + axisZ*sz` (axes of rotation
`state.rotation`) is loaded and its voxel has id `ignore` or a block definition marked
replaceable; otherwise it returns false. -/
theorem check_replaceability_iff (K : Constants) (chunks : Storage) (d : Block)
    (state : blockstate) (origin : ivec3) (ignore : Nat)
    (hreg : ∀ s ∈ offsets d.size,
      ∀ vox ∈ get K chunks (segment_pos origin (d.rotations.variants state.rotation) s).x
          (segment_pos origin (d.rotations.variants state.rotation) s).y
          (segment_pos origin (d.rotations.variants state.rotation) s).z,
        (chunks.blocks vox.id).isSome = true) :
    (check_replaceability K chunks d state origin ignore = .ok true ↔
      ∀ sx sy sz : Int, 0 ≤ sx → sx < d.size.x → 0 ≤ sy → sy < d.size.y →
        0 ≤ sz → sz < d.size.z →
        ∃ vox,
          get K chunks
            (segment_pos origin (d.rotations.variants state.rotation) ⟨sx, sy, sz⟩).x
            (segment_pos origin (d.rotations.variants state.rotation) ⟨sx, sy, sz⟩).y
            (segment_pos origin (d.rotations.variants state.rotation) ⟨sx, sy, sz⟩).z
            = some vox ∧
          (vox.id = ignore ∨
            ∃ target, chunks.blocks vox.id = some target ∧ target.replaceable = true)) ∧
    (check_replaceability K chunks d state origin ignore ≠ .ok true →
      check_replaceability K chunks d state origin ignore = .ok false) := by
  unfold check_replaceability
  constructor
  · rw [check_cells_true_iff]
    constructor
    · intro h sx sy sz hx0 hx1 hy0 hy1 hz0 hz1
      obtain ⟨vox, target, h1, h2, h3⟩ :=
        h ⟨sx, sy, sz⟩ ((mem_offsets d.size ⟨sx, sy, sz⟩).2 ⟨⟨hx0, hx1⟩, ⟨hy0, hy1⟩, hz0, hz1⟩)
      refine ⟨vox, h1, ?_⟩
      rcases h3 with h3 | h3
      · exact Or.inl h3
      · exact Or.inr ⟨target, h2, h3⟩
    · intro h s hs
      obtain ⟨⟨hx0, hx1⟩, ⟨hy0, hy1⟩, hz0, hz1⟩ := (mem_offsets d.size s).1 hs
      obtain ⟨vox, h1, h3⟩ := h s.x s.y s.z hx0 hx1 hy0 hy1 hz0 hz1
      obtain ⟨target, h2⟩ := Option.isSome_iff_exists.mp (hreg s hs vox h1)
      refine ⟨vox, target, h1, h2, ?_⟩
      rcases h3 with h3 | ⟨t, h4, h5⟩
      · exact Or.inl h3
      · rw [h2] at h4
        cases h4
        exact Or.inr h5
  · intro hne
    rcases check_cells_returns K chunks (d.rotations.variants state.rotation) origin ignore
      (offsets d.size) (fun s hs vox hv => hreg s hs vox hv) with h | h
    · exact absurd h hne
    · exact h

/-- Instance of C6: the footprint of the beam under rotation 1 in the world where a crate
sits at `(5, 0, 6)`; the check returns false. -/
theorem check_replaceability_iff_witness :
    (∀ s ∈ offsets demo_beam.size,
      ∀ vox ∈ get demo_constants demo_world_blocked
          (segment_pos ⟨5, 0, 5⟩ (demo_beam.rotations.variants 1) s).x
          (segment_pos ⟨5, 0, 5⟩ (demo_beam.rotations.variants 1) s).y
          (segment_pos ⟨5, 0, 5⟩ (demo_beam.rotations.variants 1) s).z,
        (demo_world_blocked.blocks vox.id).isSome = true) ∧
    check_replaceability demo_constants demo_world_blocked demo_beam ⟨1, 0, 0⟩ ⟨5, 0, 5⟩ 1
      = .ok false :=
  ⟨by decide,
    (check_replaceability_iff demo_constants demo_world_blocked demo_beam ⟨1, 0, 0⟩ ⟨5, 0, 5⟩ 1
      (by decide)).2 (by decide)⟩

/-- C1 (as amended): if some cell of the new footprint holds a non-replaceable block whose
id differs from `def.rt.id`, then `set_rotation_extended` leaves the storage, voxels and
modified flags alike, exactly as it was before the call. -/
theorem set_rotation_extended_obstructed (K : Constants) (chunks : Storage) (d : Block)
    (state : blockstate) (origin : ivec3) (index : Nat) (sx sy sz : Int)
    (hx : 0 ≤ sx ∧ sx < d.size.x) (hy : 0 ≤ sy ∧ sy < d.size.y) (hz : 0 ≤ sz ∧ sz < d.size.z)
    (vox : voxel) (target : Block)
    (hget : get K chunks (segment_pos origin (d.rotations.variants index) ⟨sx, sy, sz⟩).x
      (segment_pos origin (d.rotations.variants index) ⟨sx, sy, sz⟩).y
      (segment_pos origin (d.rotations.variants index) ⟨sx, sy, sz⟩).z = some vox)
    (hdef : chunks.blocks vox.id = some target) (hnr : target.replaceable = false)
    (hid : vox.id ≠ d.rt.id) :
    (set_rotation_extended K chunks d state origin index).chunks = chunks := by
  cases hcr : check_replaceability K chunks d ⟨index, state.segment, state.userbits⟩ origin
      d.rt.id with
  | error e => simp only [set_rotation_extended, hcr]
  | ok b =>
    cases b with
    | false => simp only [set_rotation_extended, hcr]
    | true =>
      exfalso
      unfold check_replaceability at hcr
      rw [check_cells_true_iff] at hcr
      obtain ⟨vox1, target1, h1, h2, h3⟩ :=
        hcr ⟨sx, sy, sz⟩ ((mem_offsets d.size ⟨sx, sy, sz⟩).2 ⟨hx, hy, hz⟩)
      simp only at h1
      rw [hget] at h1
      cases h1
      rw [hdef] at h2
      cases h2
      rcases h3 with h3 | h3
      · exact hid h3
      · rw [hnr] at h3
        cases h3

/-- Instance of C1 (as amended): the crate at `(5, 0, 6)` blocks the rotation of the beam
from rotation 0 to rotation 1. -/
theorem set_rotation_extended_obstructed_witness :
    (get demo_constants demo_world_blocked 5 0 6 = some ⟨2, ⟨0, 0, 0⟩⟩ ∧
      demo_world_blocked.blocks 2 = some demo_crate ∧ demo_crate.replaceable = false ∧
      (2 : Nat) ≠ demo_beam.rt.id) ∧
    (set_rotation_extended demo_constants demo_world_blocked demo_beam ⟨0, 0, 0⟩ ⟨5, 0, 5⟩
      1).chunks = demo_world_blocked :=
  ⟨⟨by decide, rfl, rfl, by decide⟩,
    set_rotation_extended_obstructed demo_constants demo_world_blocked demo_beam ⟨0, 0, 0⟩
      ⟨5, 0, 5⟩ 1 1 0 0 (by decide) (by decide) (by decide) ⟨2, ⟨0, 0, 0⟩⟩ demo_crate
      (by decide) rfl rfl (by decide)⟩

/-- C1 as stated fails: with two beams of the same id side by side, the cell `(5, 0, 6)`
of the new footprint is non-replaceable and outside the original footprint
`(5,0,5)`, `(6,0,5)` of the rotated beam, yet the rotation goes through: the state of the
neighbour's origin `(5, 0, 6)` is overwritten in place and the cell `(6, 0, 5)` is
emptied. -/
theorem set_rotation_extended_obstructed_counterexample :
    (∃ s ∈ offsets demo_beam.size, ∃ vox target,
      get demo_constants demo_world_pair
          (segment_pos ⟨5, 0, 5⟩ (demo_beam.rotations.variants 1) s).x
          (segment_pos ⟨5, 0, 5⟩ (demo_beam.rotations.variants 1) s).y
          (segment_pos ⟨5, 0, 5⟩ (demo_beam.rotations.variants 1) s).z = some vox ∧
      demo_world_pair.blocks vox.id = some target ∧ target.replaceable = false ∧
      segment_pos ⟨5, 0, 5⟩ (demo_beam.rotations.variants 1) s ∉
        footprint ⟨5, 0, 5⟩ (demo_beam.rotations.variants 0) demo_beam.size) ∧
    (get demo_constants demo_world_pair 5 0 6 = some ⟨1, ⟨0, 0, 0⟩⟩ ∧
      get demo_constants (set_rotation_extended demo_constants demo_world_pair demo_beam
        ⟨0, 0, 0⟩ ⟨5, 0, 5⟩ 1).chunks 5 0 6 = some ⟨1, ⟨1, 1, 0⟩⟩) ∧
    (get demo_constants demo_world_pair 6 0 5 = some ⟨1, ⟨0, 1, 0⟩⟩ ∧
      get demo_constants (set_rotation_extended demo_constants demo_world_pair demo_beam
        ⟨0, 0, 0⟩ ⟨5, 0, 5⟩ 1).chunks 6 0 5 = some ⟨0, ⟨0, 0, 0⟩⟩) :=
  ⟨⟨⟨1, 0, 0⟩, by decide, ⟨1, ⟨0, 0, 0⟩⟩, demo_beam, by decide, rfl, rfl, by decide⟩,
    ⟨by decide, by decide⟩, ⟨by decide, by decide⟩⟩

/-! ## Vector algebra and segment codes -/

theorem ivec3.add_def (a b : ivec3) : a + b = ⟨a.x + b.x, a.y + b.y, a.z + b.z⟩ := rfl

theorem ivec3.sub_def (a b : ivec3) : a - b = ⟨a.x - b.x, a.y - b.y, a.z - b.z⟩ := rfl

theorem ivec3.eq_of_components {a b : ivec3} (hx : a.x = b.x) (hy : a.y = b.y)
    (hz : a.z = b.z) : a = b := by
  cases a
  cases b
  simp only at hx hy hz
  rw [hx, hy, hz]

theorem segment_pos_zero (origin : ivec3) (r : BlockRotation) :
    segment_pos origin r ⟨0, 0, 0⟩ = origin := by
  apply ivec3.eq_of_components <;>
    simp [segment_pos, ivec3.add_def, ivec3.scale]

/-- Stepping back along the axes selected by three flags moves to the cell whose offset
is one less in the flagged components. -/
theorem segment_pos_step_back (origin : ivec3) (r : BlockRotation) (s : ivec3)
    (bx bY bz : Prop) [Decidable bx] [Decidable bY] [Decidable bz] :
    (if bz then
        (if bY then (if bx then segment_pos origin r s - r.axisX else segment_pos origin r s)
            - r.axisY
          else (if bx then segment_pos origin r s - r.axisX else segment_pos origin r s))
          - r.axisZ
      else
        (if bY then (if bx then segment_pos origin r s - r.axisX else segment_pos origin r s)
            - r.axisY
          else (if bx then segment_pos origin r s - r.axisX else segment_pos origin r s)))
      = segment_pos origin r
          ⟨s.x - (if bx then 1 else 0), s.y - (if bY then 1 else 0),
            s.z - (if bz then 1 else 0)⟩ := by
  by_cases hx : bx <;> by_cases hy : bY <;> by_cases hz : bz <;>
    simp only [hx, hy, hz, if_true, if_false] <;>
    apply ivec3.eq_of_components <;>
    simp only [segment_pos, ivec3.add_def, ivec3.sub_def, ivec3.scale] <;> ring

theorem segment_to_int_eq_zero (sx sy sz : Int) :
    segment_to_int sx sy sz = 0 ↔ ¬ sx > 0 ∧ ¬ sy > 0 ∧ ¬ sz > 0 := by
  unfold segment_to_int
  by_cases hx : sx > 0 <;> by_cases hy : sy > 0 <;> by_cases hz : sz > 0 <;>
    simp only [hx, hy, hz, if_true, if_false] <;> decide

theorem segment_to_int_bit0 (sx sy sz : Int) :
    segment_to_int sx sy sz &&& 1 ≠ 0 ↔ sx > 0 := by
  unfold segment_to_int
  by_cases hx : sx > 0 <;> by_cases hy : sy > 0 <;> by_cases hz : sz > 0 <;>
    simp only [hx, hy, hz, if_true, if_false] <;> decide

theorem segment_to_int_bit1 (sx sy sz : Int) :
    segment_to_int sx sy sz &&& 2 ≠ 0 ↔ sy > 0 := by
  unfold segment_to_int
  by_cases hx : sx > 0 <;> by_cases hy : sy > 0 <;> by_cases hz : sz > 0 <;>
    simp only [hx, hy, hz, if_true, if_false] <;> decide

theorem segment_to_int_bit2 (sx sy sz : Int) :
    segment_to_int sx sy sz &&& 4 ≠ 0 ↔ sz > 0 := by
  unfold segment_to_int
  by_cases hx : sx > 0 <;> by_cases hy : sy > 0 <;> by_cases hz : sz > 0 <;>
    simp only [hx, hy, hz, if_true, if_false] <;> decide

/-! ## The two loop nests of `set_rotation_extended` -/

/-- One iteration of the first loop nest on a loaded cell: whichever branch is taken, the
cell ends up holding the block id and the recomputed state and its chunk is marked; the
position is recorded exactly when the cell already carried the block id. -/
theorem write_segments_cons (K : Constants) (d : Block) (newstate : blockstate)
    (origin : ivec3) (rotation : BlockRotation) (s : ivec3) (rest : List ivec3)
    (chunks : Storage) (segmentBlocks : List ivec3) (vox : voxel)
    (h : get K chunks (segment_pos origin rotation s).x (segment_pos origin rotation s).y
      (segment_pos origin rotation s).z = some vox) :
    write_segments K d newstate origin rotation (s :: rest) chunks segmentBlocks =
      write_segments K d newstate origin rotation rest
        (set K chunks (segment_pos origin rotation s).x (segment_pos origin rotation s).y
          (segment_pos origin rotation s).z d.rt.id
          ⟨newstate.rotation, segment_to_int s.x s.y s.z, newstate.userbits⟩)
        (if vox.id = d.rt.id then segmentBlocks ++ [segment_pos origin rotation s]
          else segmentBlocks) := by
  by_cases hid : vox.id = d.rt.id
  · simp only [write_segments, h, hid, ne_eq, not_true_eq_false, if_false, if_true]
    rw [store_then_modified K chunks _ _ _ _ vox h]
  · simp only [write_segments, h, hid, ne_eq, not_false_eq_true, if_true, if_false]

theorem write_segments_nil (K : Constants) (d : Block) (newstate : blockstate)
    (origin : ivec3) (rotation : BlockRotation) (chunks : Storage)
    (segmentBlocks : List ivec3) :
    write_segments K d newstate origin rotation [] chunks segmentBlocks =
      ⟨chunks, segmentBlocks, none⟩ := rfl

/-- The first loop nest can only end by returning or by dereferencing a null pointer. -/
theorem write_segments_fault (K : Constants) (d : Block) (newstate : blockstate)
    (origin : ivec3) (rotation : BlockRotation) (l : List ivec3) :
    ∀ (chunks : Storage) (segmentBlocks : List ivec3),
      (write_segments K d newstate origin rotation l chunks segmentBlocks).fault = none ∨
      (write_segments K d newstate origin rotation l chunks segmentBlocks).fault
        = some Fault.null_deref := by
  induction l with
  | nil =>
    intro chunks segmentBlocks
    exact Or.inl rfl
  | cons s rest ih =>
    intro chunks segmentBlocks
    cases h : get K chunks (segment_pos origin rotation s).x (segment_pos origin rotation s).y
        (segment_pos origin rotation s).z with
    | none =>
      right
      simp only [write_segments, h]
    | some vox =>
      rw [write_segments_cons K d newstate origin rotation s rest chunks segmentBlocks vox h]
      exact ih _ _

/-- The loop of `check_replaceability` can only throw for an unknown block id. -/
theorem check_cells_error (K : Constants) (chunks : Storage) (rotation : BlockRotation)
    (origin : ivec3) (ignore : Nat) (l : List ivec3) (e : Fault)
    (h : check_cells K chunks rotation origin ignore l = .error e) :
    e = Fault.unknown_block := by
  induction l with
  | nil => cases h
  | cons s rest ih =>
    cases hg : get K chunks (segment_pos origin rotation s).x (segment_pos origin rotation s).y
        (segment_pos origin rotation s).z with
    | none =>
      simp only [check_cells, hg] at h
      cases h
    | some vox =>
      cases hb : chunks.blocks vox.id with
      | none =>
        simp only [check_cells, hg, require_block, hb, Except.error.injEq] at h
        exact h.symm
      | some target =>
        simp only [check_cells, hg, require_block, hb] at h
        by_cases hc : (!target.replaceable && vox.id != ignore) = true
        · rw [if_pos hc] at h
          cases h
        · rw [if_neg hc] at h
          exact ih h

/-- The call `set_rotation_extended` has no loop that can run out of fuel. -/
theorem set_rotation_extended_fault (K : Constants) (chunks : Storage) (d : Block)
    (state : blockstate) (origin : ivec3) (index : Nat) :
    (set_rotation_extended K chunks d state origin index).fault ≠ some Fault.out_of_fuel := by
  unfold set_rotation_extended
  simp only
  split
  · rename_i e he
    have := check_cells_error K chunks _ origin d.rt.id _ e he
    rw [this]
    simp
  · simp
  · split
    · rename_i c1 sb e hw
      have := write_segments_fault K d ⟨index, state.segment, state.userbits⟩ origin
        (d.rotations.variants index) (offsets d.size) chunks []
      rw [hw] at this
      simp only [reduceCtorEq, Option.some.injEq, false_or] at this
      rw [this]
      simp
    · simp

/-- Writing with `set` does not change which cells are loaded. -/
theorem get_set_isSome (K : Constants) (hW : 0 < K.CHUNK_W) (hD : 0 < K.CHUNK_D)
    (chunks : Storage) (p : ivec3) (id : Nat) (st : blockstate) (q : ivec3) :
    (get K (set K chunks p.x p.y p.z id st) q.x q.y q.z).isSome =
      (get K chunks q.x q.y q.z).isSome := by
  rw [get_set K hW hD]
  by_cases h : p = q ∧ (get K chunks p.x p.y p.z).isSome = true
  · rw [if_pos h]
    rw [← h.1, h.2]
    rfl
  · rw [if_neg h]

/-- Frame of the first loop nest: a cell that is no cell of the list is not changed. -/
theorem write_segments_frame (K : Constants) (hW : 0 < K.CHUNK_W) (hD : 0 < K.CHUNK_D)
    (d : Block) (newstate : blockstate) (origin : ivec3) (rotation : BlockRotation)
    (q : ivec3) (l : List ivec3) :
    ∀ (chunks : Storage) (segmentBlocks : List ivec3),
      (∀ s ∈ l, segment_pos origin rotation s ≠ q) →
      get K (write_segments K d newstate origin rotation l chunks segmentBlocks).chunks
        q.x q.y q.z = get K chunks q.x q.y q.z := by
  induction l with
  | nil =>
    intro chunks segmentBlocks _
    rfl
  | cons a rest ih =>
    intro chunks segmentBlocks hq
    cases h : get K chunks (segment_pos origin rotation a).x (segment_pos origin rotation a).y
        (segment_pos origin rotation a).z with
    | none => simp only [write_segments, h]
    | some vox =>
      rw [write_segments_cons K d newstate origin rotation a rest chunks segmentBlocks vox h]
      rw [ih _ _ (fun s hs => hq s (List.mem_cons_of_mem a hs))]
      rw [get_set K hW hD]
      have hne : ¬ (segment_pos origin rotation a = q ∧
          (get K chunks (segment_pos origin rotation a).x (segment_pos origin rotation a).y
            (segment_pos origin rotation a).z).isSome = true) :=
        fun hc => hq a (List.mem_cons_self a rest) hc.1
      rw [if_neg hne]

/-- The first loop nest returns normally when every cell of the list is loaded. -/
theorem write_segments_returns (K : Constants) (hW : 0 < K.CHUNK_W) (hD : 0 < K.CHUNK_D)
    (d : Block) (newstate : blockstate) (origin : ivec3) (rotation : BlockRotation)
    (l : List ivec3) :
    ∀ (chunks : Storage) (segmentBlocks : List ivec3),
      (∀ s ∈ l, (get K chunks (segment_pos origin rotation s).x
        (segment_pos origin rotation s).y (segment_pos origin rotation s).z).isSome = true) →
      (write_segments K d newstate origin rotation l chunks segmentBlocks).fault = none := by
  induction l with
  | nil =>
    intro chunks segmentBlocks _
    rfl
  | cons a rest ih =>
    intro chunks segmentBlocks hl
    obtain ⟨vox, h⟩ := Option.isSome_iff_exists.mp (hl a (List.mem_cons_self a rest))
    rw [write_segments_cons K d newstate origin rotation a rest chunks segmentBlocks vox h]
    apply ih
    intro s hs
    rw [get_set_isSome K hW hD]
    exact hl s (List.mem_cons_of_mem a hs)

/-- What the first loop nest leaves in a cell of the list whose position no other offset
of the list maps to. -/
theorem write_segments_value (K : Constants) (hW : 0 < K.CHUNK_W) (hD : 0 < K.CHUNK_D)
    (d : Block) (newstate : blockstate) (origin : ivec3) (rotation : BlockRotation)
    (s : ivec3) (l : List ivec3) :
    ∀ (chunks : Storage) (segmentBlocks : List ivec3),
      (∀ t ∈ l, (get K chunks (segment_pos origin rotation t).x
        (segment_pos origin rotation t).y (segment_pos origin rotation t).z).isSome = true) →
      s ∈ l →
      (∀ t ∈ l, segment_pos origin rotation t = segment_pos origin rotation s → t = s) →
      get K (write_segments K d newstate origin rotation l chunks segmentBlocks).chunks
        (segment_pos origin rotation s).x (segment_pos origin rotation s).y
        (segment_pos origin rotation s).z
        = some ⟨d.rt.id, ⟨newstate.rotation, segment_to_int s.x s.y s.z,
            newstate.userbits⟩⟩ := by
  induction l with
  | nil =>
    intro chunks segmentBlocks _ hs
    cases hs
  | cons a rest ih =>
    intro chunks segmentBlocks hl hs hu
    obtain ⟨vox, h⟩ := Option.isSome_iff_exists.mp (hl a (List.mem_cons_self a rest))
    rw [write_segments_cons K d newstate origin rotation a rest chunks segmentBlocks vox h]
    have hl1 : ∀ t ∈ rest, (get K (set K chunks (segment_pos origin rotation a).x
        (segment_pos origin rotation a).y (segment_pos origin rotation a).z d.rt.id
        ⟨newstate.rotation, segment_to_int a.x a.y a.z, newstate.userbits⟩)
        (segment_pos origin rotation t).x (segment_pos origin rotation t).y
        (segment_pos origin rotation t).z).isSome = true := by
      intro t ht
      rw [get_set_isSome K hW hD]
      exact hl t (List.mem_cons_of_mem a ht)
    by_cases hrest : s ∈ rest
    · exact ih _ _ hl1 hrest (fun t ht => hu t (List.mem_cons_of_mem a ht))
    · have hsa : s = a := by
        rcases List.mem_cons.1 hs with h1 | h1
        · exact h1
        · exact absurd h1 hrest
      subst hsa
      rw [write_segments_frame K hW hD d newstate origin rotation _ rest _ _
        (fun t ht heq => hrest ((hu t (List.mem_cons_of_mem s ht) heq) ▸ ht))]
      exact get_set_same K chunks _ _ _ _ _ vox h

/-- Every recorded position is a cell of the list, or was recorded before. -/
theorem write_segments_recorded_sub (K : Constants) (d : Block) (newstate : blockstate)
    (origin : ivec3) (rotation : BlockRotation) (q : ivec3) (l : List ivec3) :
    ∀ (chunks : Storage) (segmentBlocks : List ivec3),
      q ∈ (write_segments K d newstate origin rotation l chunks segmentBlocks).segmentBlocks →
      q ∈ segmentBlocks ∨ q ∈ l.map (segment_pos origin rotation) := by
  induction l with
  | nil =>
    intro chunks segmentBlocks hq
    exact Or.inl hq
  | cons a rest ih =>
    intro chunks segmentBlocks hq
    cases h : get K chunks (segment_pos origin rotation a).x (segment_pos origin rotation a).y
        (segment_pos origin rotation a).z with
    | none =>
      simp only [write_segments, h] at hq
      exact Or.inl hq
    | some vox =>
      rw [write_segments_cons K d newstate origin rotation a rest chunks segmentBlocks vox h]
        at hq
      rcases ih _ _ hq with h1 | h1
      · by_cases hid : vox.id = d.rt.id
        · rw [if_pos hid, List.mem_append, List.mem_singleton] at h1
          rcases h1 with h2 | h2
          · exact Or.inl h2
          · right
            rw [h2]
            exact List.mem_map_of_mem _ (List.mem_cons_self a rest)
        · rw [if_neg hid] at h1
          exact Or.inl h1
      · right
        rw [List.map_cons]
        exact List.mem_cons_of_mem _ h1

/-- A cell of the list that carries the block id before the loop is recorded. -/
theorem write_segments_records (K : Constants) (hW : 0 < K.CHUNK_W) (hD : 0 < K.CHUNK_D)
    (d : Block) (newstate : blockstate) (origin : ivec3) (rotation : BlockRotation)
    (q : ivec3) (l : List ivec3) :
    ∀ (chunks : Storage) (segmentBlocks : List ivec3),
      (∀ t ∈ l, (get K chunks (segment_pos origin rotation t).x
        (segment_pos origin rotation t).y (segment_pos origin rotation t).z).isSome = true) →
      (q ∈ segmentBlocks ∨
        (q ∈ l.map (segment_pos origin rotation) ∧
          ∃ vox, get K chunks q.x q.y q.z = some vox ∧ vox.id = d.rt.id)) →
      q ∈ (write_segments K d newstate origin rotation l chunks segmentBlocks).segmentBlocks := by
  induction l with
  | nil =>
    intro chunks segmentBlocks _ hq
    rcases hq with h1 | ⟨h1, _⟩
    · exact h1
    · cases h1
  | cons a rest ih =>
    intro chunks segmentBlocks hl hq
    obtain ⟨va, h⟩ := Option.isSome_iff_exists.mp (hl a (List.mem_cons_self a rest))
    rw [write_segments_cons K d newstate origin rotation a rest chunks segmentBlocks va h]
    apply ih
    · intro t ht
      rw [get_set_isSome K hW hD]
      exact hl t (List.mem_cons_of_mem a ht)
    · rcases hq with h1 | ⟨h1, vox, hv, hid⟩
      · left
        split
        · exact List.mem_append_left _ h1
        · exact h1
      · by_cases hqa : segment_pos origin rotation a = q
        · left
          rw [hqa] at h
          rw [hv] at h
          cases h
          rw [if_pos hid, hqa]
          exact List.mem_append_right _ (List.mem_singleton_self q)
        · right
          rw [List.map_cons, List.mem_cons] at h1
          rcases h1 with h2 | h2
          · exact absurd h2.symm hqa
          · refine ⟨h2, vox, ?_, hid⟩
            rw [get_set K hW hD, if_neg (fun hc => hqa hc.1)]
            exact hv

/-- The second loop nest leaves alone every cell that is recorded or is no cell of the
list. -/
theorem clear_segments_keeps (K : Constants) (hW : 0 < K.CHUNK_W) (hD : 0 < K.CHUNK_D)
    (origin : ivec3) (prevRotation : BlockRotation) (segmentBlocks : List ivec3) (q : ivec3)
    (l : List ivec3) :
    ∀ chunks : Storage,
      (∀ s ∈ l, segment_pos origin prevRotation s = q → q ∈ segmentBlocks) →
      get K (clear_segments K origin prevRotation segmentBlocks l chunks) q.x q.y q.z
        = get K chunks q.x q.y q.z := by
  induction l with
  | nil =>
    intro chunks _
    rfl
  | cons a rest ih =>
    intro chunks hq
    have hrest : ∀ s ∈ rest, segment_pos origin prevRotation s = q → q ∈ segmentBlocks :=
      fun s hs => hq s (List.mem_cons_of_mem a hs)
    by_cases hm : segment_pos origin prevRotation a ∉ segmentBlocks
    · simp only [clear_segments, hm, not_false_eq_true, if_true]
      rw [ih _ hrest, get_set K hW hD]
      have hne : ¬ (segment_pos origin prevRotation a = q ∧
          (get K chunks (segment_pos origin prevRotation a).x
            (segment_pos origin prevRotation a).y
            (segment_pos origin prevRotation a).z).isSome = true) := by
        rintro ⟨hc, _⟩
        exact hm (hc ▸ hq a (List.mem_cons_self a rest) hc)
      rw [if_neg hne]
    · simp only [clear_segments, hm, if_false]
      exact ih _ hrest

/-- An empty cell stays empty through the second loop nest. -/
theorem clear_segments_empty (K : Constants) (hW : 0 < K.CHUNK_W) (hD : 0 < K.CHUNK_D)
    (origin : ivec3) (prevRotation : BlockRotation) (segmentBlocks : List ivec3) (q : ivec3)
    (l : List ivec3) :
    ∀ chunks : Storage,
      get K chunks q.x q.y q.z = some ⟨0, blockstate.zero⟩ →
      get K (clear_segments K origin prevRotation segmentBlocks l chunks) q.x q.y q.z
        = some ⟨0, blockstate.zero⟩ := by
  induction l with
  | nil =>
    intro chunks h
    exact h
  | cons a rest ih =>
    intro chunks h
    by_cases hm : segment_pos origin prevRotation a ∉ segmentBlocks
    · simp only [clear_segments, hm, not_false_eq_true, if_true]
      apply ih
      rw [get_set K hW hD]
      split
      · rfl
      · exact h
    · simp only [clear_segments, hm, if_false]
      exact ih _ h

/-- The second loop nest empties every loaded cell of the list that is not recorded. -/
theorem clear_segments_clears (K : Constants) (hW : 0 < K.CHUNK_W) (hD : 0 < K.CHUNK_D)
    (origin : ivec3) (prevRotation : BlockRotation) (segmentBlocks : List ivec3) (q : ivec3)
    (hq : q ∉ segmentBlocks) (l : List ivec3) :
    ∀ chunks : Storage,
      q ∈ l.map (segment_pos origin prevRotation) →
      (get K chunks q.x q.y q.z).isSome = true →
      get K (clear_segments K origin prevRotation segmentBlocks l chunks) q.x q.y q.z
        = some ⟨0, blockstate.zero⟩ := by
  induction l with
  | nil =>
    intro chunks h
    cases h
  | cons a rest ih =>
    intro chunks hmem hload
    by_cases hqa : segment_pos origin prevRotation a = q
    · have hm : segment_pos origin prevRotation a ∉ segmentBlocks := hqa ▸ hq
      simp only [clear_segments, hm, not_false_eq_true, if_true]
      apply clear_segments_empty K hW hD
      obtain ⟨vox, hv⟩ := Option.isSome_iff_exists.mp hload
      rw [hqa]
      exact get_set_same K chunks q.x q.y q.z 0 blockstate.zero vox hv
    · have hmem1 : q ∈ rest.map (segment_pos origin prevRotation) := by
        rw [List.map_cons, List.mem_cons] at hmem
        rcases hmem with h1 | h1
        · exact absurd h1.symm hqa
        · exact h1
      by_cases hm : segment_pos origin prevRotation a ∉ segmentBlocks
      · simp only [clear_segments, hm, not_false_eq_true, if_true]
        apply ih _ hmem1
        rw [get_set_isSome K hW hD]
        exact hload
      · simp only [clear_segments, hm, if_false]
        exact ih _ hmem1 hload

/-- Under orthonormal axes distinct offsets give distinct cells. -/
theorem segment_pos_injective (r : BlockRotation) (h : r.orthonormal) (origin s t : ivec3)
    (e : segment_pos origin r s = segment_pos origin r t) : s = t := by
  obtain ⟨hXX, hYY, hZZ, hXY, hXZ, hYZ⟩ := h
  simp only [ivec3.dot] at hXX hYY hZZ hXY hXZ hYZ
  have e1 := congrArg ivec3.x e
  have e2 := congrArg ivec3.y e
  have e3 := congrArg ivec3.z e
  simp only [segment_pos, ivec3.add_def, ivec3.scale] at e1 e2 e3
  apply ivec3.eq_of_components
  · linear_combination r.axisX.x * e1 + r.axisX.y * e2 + r.axisX.z * e3
      - (s.x - t.x) * hXX - (s.y - t.y) * hXY - (s.z - t.z) * hXZ
  · linear_combination r.axisY.x * e1 + r.axisY.y * e2 + r.axisY.z * e3
      - (s.x - t.x) * hXY - (s.y - t.y) * hYY - (s.z - t.z) * hYZ
  · linear_combination r.axisZ.x * e1 + r.axisZ.y * e2 + r.axisZ.z * e3
      - (s.x - t.x) * hXZ - (s.y - t.y) * hYZ - (s.z - t.z) * hZZ

/-- After an accepted check the call runs both loop nests to the end. -/
theorem set_rotation_extended_accepted (K : Constants) (chunks : Storage) (d : Block)
    (state : blockstate) (origin : ivec3) (index : Nat)
    (hcheck : check_replaceability K chunks d ⟨index, state.segment, state.userbits⟩ origin
      d.rt.id = .ok true)
    (hf : (write_segments K d ⟨index, state.segment, state.userbits⟩ origin
      (d.rotations.variants index) (offsets d.size) chunks []).fault = none) :
    set_rotation_extended K chunks d state origin index =
      ⟨clear_segments K origin (d.rotations.variants state.rotation)
        (write_segments K d ⟨index, state.segment, state.userbits⟩ origin
          (d.rotations.variants index) (offsets d.size) chunks []).segmentBlocks
        (offsets d.size)
        (write_segments K d ⟨index, state.segment, state.userbits⟩ origin
          (d.rotations.variants index) (offsets d.size) chunks []).chunks, none⟩ := by
  simp only [set_rotation_extended, hcheck]
  cases hw : write_segments K d ⟨index, state.segment, state.userbits⟩ origin
      (d.rotations.variants index) (offsets d.size) chunks [] with
  | mk c1 sb f =>
    rw [hw] at hf
    simp only at hf
    subst hf
    rfl

/-- State after a successful `set_rotation_extended` on a well-formed block whose target
rotation has orthonormal axes: the call returns, every cell of the new footprint holds the
block id with the target rotation and the segment code of its offset, and every loaded
cell of the old footprint outside the new one is empty. -/
theorem set_rotation_extended_post (K : Constants) (hW : 0 < K.CHUNK_W) (hD : 0 < K.CHUNK_D)
    (chunks : Storage) (d : Block) (state : blockstate) (origin : ivec3) (index : Nat)
    (hcheck : check_replaceability K chunks d ⟨index, state.segment, state.userbits⟩ origin
      d.rt.id = .ok true)
    (hwf : well_formed K chunks d d.rt.id state.rotation origin)
    (horth : (d.rotations.variants index).orthonormal) :
    (set_rotation_extended K chunks d state origin index).fault = none ∧
    (∀ s ∈ offsets d.size,
      get K (set_rotation_extended K chunks d state origin index).chunks
        (segment_pos origin (d.rotations.variants index) s).x
        (segment_pos origin (d.rotations.variants index) s).y
        (segment_pos origin (d.rotations.variants index) s).z
        = some ⟨d.rt.id, ⟨index, segment_to_int s.x s.y s.z, state.userbits⟩⟩) ∧
    (∀ q ∈ footprint origin (d.rotations.variants state.rotation) d.size,
      q ∉ footprint origin (d.rotations.variants index) d.size →
      get K (set_rotation_extended K chunks d state origin index).chunks q.x q.y q.z
        = some ⟨0, blockstate.zero⟩) := by
  have hloaded : ∀ s ∈ offsets d.size,
      (get K chunks (segment_pos origin (d.rotations.variants index) s).x
        (segment_pos origin (d.rotations.variants index) s).y
        (segment_pos origin (d.rotations.variants index) s).z).isSome = true := by
    intro s hs
    unfold check_replaceability at hcheck
    rw [check_cells_true_iff] at hcheck
    obtain ⟨vox, _, h1, _⟩ := hcheck s hs
    simp only at h1
    rw [h1]
    rfl
  have hf := write_segments_returns K hW hD d ⟨index, state.segment, state.userbits⟩ origin
    (d.rotations.variants index) (offsets d.size) chunks [] hloaded
  rw [set_rotation_extended_accepted K chunks d state origin index hcheck hf]
  refine ⟨rfl, ?_, ?_⟩
  · intro s hs
    simp only
    rw [clear_segments_keeps K hW hD]
    · exact write_segments_value K hW hD d ⟨index, state.segment, state.userbits⟩ origin
        (d.rotations.variants index) s (offsets d.size) chunks [] hloaded hs
        (fun t _ heq => segment_pos_injective _ horth origin t s heq)
    · intro t ht heq
      apply write_segments_records K hW hD d ⟨index, state.segment, state.userbits⟩ origin
        (d.rotations.variants index) _ (offsets d.size) chunks [] hloaded
      right
      refine ⟨List.mem_map_of_mem _ hs, ?_⟩
      obtain ⟨vox, hv, hid, _, _⟩ := hwf t ht
      refine ⟨vox, ?_, hid⟩
      rw [← heq]
      exact hv
  · intro q hq hnq
    simp only
    have hnrec : q ∉ (write_segments K d ⟨index, state.segment, state.userbits⟩ origin
        (d.rotations.variants index) (offsets d.size) chunks []).segmentBlocks := by
      intro hc
      rcases write_segments_recorded_sub K d _ origin _ q _ chunks [] hc with h1 | h1
      · cases h1
      · exact hnq h1
    apply clear_segments_clears K hW hD origin _ _ q hnrec (offsets d.size) _ hq
    rw [write_segments_frame K hW hD d _ origin _ q (offsets d.size) chunks []
      (fun s hs heq => hnq (heq ▸ List.mem_map_of_mem _ hs))]
    obtain ⟨t, ht, hqt⟩ := List.mem_map.1 hq
    obtain ⟨vox, hv, _⟩ := hwf t ht
    rw [← hqt]
    have hv1 : get K chunks _ _ _ = some vox := hv
    rw [hv1]
    rfl

/-! ## `seek_origin` on a well-formed block -/

/-- From any cell of a well-formed block the backward walk of `seek_origin` ends at the
origin, given fuel above every component of the cell's offset. -/
theorem seek_origin_loop_well_formed (K : Constants) (chunks : Storage) (d : Block)
    (id rot : Nat) (origin : ivec3) (hwf : well_formed K chunks d id rot origin) :
    ∀ (fuel : Nat) (s : ivec3), s ∈ offsets d.size →
      s.x < fuel → s.y < fuel → s.z < fuel →
      seek_origin_loop K chunks (d.rotations.variants rot) fuel
        (segment_pos origin (d.rotations.variants rot) s) (segment_to_int s.x s.y s.z)
        = some origin := by
  intro fuel
  induction fuel with
  | zero =>
    intro s hs hx _ _
    have := (mem_offsets d.size s).1 hs
    omega
  | succ n ih =>
    intro s hs hx hy hz
    obtain ⟨⟨hx0, hx1⟩, ⟨hy0, hy1⟩, hz0, hz1⟩ := (mem_offsets d.size s).1 hs
    unfold seek_origin_loop
    by_cases h0 : segment_to_int s.x s.y s.z = 0
    · rw [if_pos h0]
      have h1 := (segment_to_int_eq_zero s.x s.y s.z).1 h0
      have hs0 : s = ⟨0, 0, 0⟩ :=
        ivec3.eq_of_components (by simp only; omega) (by simp only; omega)
          (by simp only; omega)
      rw [hs0, segment_pos_zero]
    · rw [if_neg h0]
      have hpos : s.x > 0 ∨ s.y > 0 ∨ s.z > 0 := by
        by_contra hc
        apply h0
        rw [segment_to_int_eq_zero]
        omega
      simp only [segment_to_int_bit0, segment_to_int_bit1, segment_to_int_bit2]
      rw [segment_pos_step_back origin (d.rotations.variants rot) s (s.x > 0) (s.y > 0)
        (s.z > 0)]
      have hx2 : 0 ≤ s.x - (if s.x > 0 then 1 else 0) ∧
          s.x - (if s.x > 0 then 1 else 0) < d.size.x ∧
          s.x - (if s.x > 0 then 1 else 0) < (n : Int) := by
        split <;> omega
      have hy2 : 0 ≤ s.y - (if s.y > 0 then 1 else 0) ∧
          s.y - (if s.y > 0 then 1 else 0) < d.size.y ∧
          s.y - (if s.y > 0 then 1 else 0) < (n : Int) := by
        split <;> omega
      have hz2 : 0 ≤ s.z - (if s.z > 0 then 1 else 0) ∧
          s.z - (if s.z > 0 then 1 else 0) < d.size.z ∧
          s.z - (if s.z > 0 then 1 else 0) < (n : Int) := by
        split <;> omega
      have hs1 : (⟨s.x - (if s.x > 0 then 1 else 0), s.y - (if s.y > 0 then 1 else 0),
          s.z - (if s.z > 0 then 1 else 0)⟩ : ivec3) ∈ offsets d.size :=
        (mem_offsets d.size _).2 ⟨⟨hx2.1, hx2.2.1⟩, ⟨hy2.1, hy2.2.1⟩, hz2.1, hz2.2.1⟩
      obtain ⟨vox, hv, _, _, hseg⟩ := hwf _ hs1
      have hv1 : get K chunks _ _ _ = some vox := hv
      rw [hv1]
      simp only
      rw [hseg]
      exact ih _ hs1 hx2.2.2 hy2.2.2 hz2.2.2

/-- C10: `set_rotation` resolves to the true origin. For a well-formed extended block
(registered under `id`, every footprint cell loaded and holding `id`, the common rotation
and the segment code of its offset) and fuel at least the largest size component, calling
`set_rotation` on any cell of the footprint gives the same outcome, final storage
included, as calling it with the same index on the origin cell, and the walk of
`seek_origin` does not run out of fuel. -/
theorem set_rotation_resolves_origin (K : Constants) (fuel : Nat) (chunks : Storage)
    (d : Block) (id rot : Nat) (origin : ivec3) (index : Nat) (sx sy sz : Int)
    (hdef : chunks.blocks id = some d) (hext : d.rt.extended = true)
    (hwf : well_formed K chunks d id rot origin)
    (hx : 0 ≤ sx ∧ sx < d.size.x) (hy : 0 ≤ sy ∧ sy < d.size.y) (hz : 0 ≤ sz ∧ sz < d.size.z)
    (hfuel : d.size.x ≤ fuel ∧ d.size.y ≤ fuel ∧ d.size.z ≤ fuel) :
    set_rotation K fuel chunks
        (segment_pos origin (d.rotations.variants rot) ⟨sx, sy, sz⟩).x
        (segment_pos origin (d.rotations.variants rot) ⟨sx, sy, sz⟩).y
        (segment_pos origin (d.rotations.variants rot) ⟨sx, sy, sz⟩).z index
      = set_rotation K fuel chunks origin.x origin.y origin.z index ∧
    (set_rotation K fuel chunks origin.x origin.y origin.z index).fault
      ≠ some Fault.out_of_fuel := by
  have hs : (⟨sx, sy, sz⟩ : ivec3) ∈ offsets d.size := (mem_offsets d.size _).2 ⟨hx, hy, hz⟩
  have h0 : (⟨0, 0, 0⟩ : ivec3) ∈ offsets d.size :=
    (mem_offsets d.size _).2 ⟨⟨le_refl 0, by show (0 : Int) < d.size.x; omega⟩,
      ⟨le_refl 0, by show (0 : Int) < d.size.y; omega⟩, le_refl 0,
      by show (0 : Int) < d.size.z; omega⟩
  obtain ⟨vox, hv, hvid, hvrot, hvseg⟩ := hwf _ hs
  obtain ⟨vo, hvo, hoid, horot, hoseg⟩ := hwf _ h0
  have hv1 : get K chunks (segment_pos origin (d.rotations.variants rot) ⟨sx, sy, sz⟩).x
      (segment_pos origin (d.rotations.variants rot) ⟨sx, sy, sz⟩).y
      (segment_pos origin (d.rotations.variants rot) ⟨sx, sy, sz⟩).z = some vox := hv
  have hvo1 : get K chunks origin.x origin.y origin.z = some vo := by
    have h : get K chunks _ _ _ = some vo := hvo
    rw [segment_pos_zero] at h
    exact h
  have hseek : seek_origin K chunks fuel
      (segment_pos origin (d.rotations.variants rot) ⟨sx, sy, sz⟩) d vox.state
      = some origin := by
    unfold seek_origin
    rw [hvrot, hvseg]
    exact seek_origin_loop_well_formed K chunks d id rot origin hwf fuel _ hs
      (by simp only; omega) (by simp only; omega) (by simp only; omega)
  have hseek0 : seek_origin K chunks fuel origin d vo.state = some origin := by
    unfold seek_origin
    rw [horot, hoseg]
    have h := seek_origin_loop_well_formed K chunks d id rot origin hwf fuel _ h0
      (by simp only; omega) (by simp only; omega) (by simp only; omega)
    rw [segment_pos_zero] at h
    exact h
  have e1 : set_rotation K fuel chunks
      (segment_pos origin (d.rotations.variants rot) ⟨sx, sy, sz⟩).x
      (segment_pos origin (d.rotations.variants rot) ⟨sx, sy, sz⟩).y
      (segment_pos origin (d.rotations.variants rot) ⟨sx, sy, sz⟩).z index =
      if index ≥ K.MAX_COUNT then ⟨chunks, none⟩
      else if (!d.rotatable || rot == index) = true then ⟨chunks, none⟩
      else set_rotation_extended K chunks d vo.state origin index := by
    simp only [set_rotation, hv1, hvid, require_block, hdef, hvrot, hext, if_true, hseek,
      hvo1]
  have e2 : set_rotation K fuel chunks origin.x origin.y origin.z index =
      if index ≥ K.MAX_COUNT then ⟨chunks, none⟩
      else if (!d.rotatable || rot == index) = true then ⟨chunks, none⟩
      else set_rotation_extended K chunks d vo.state origin index := by
    simp only [set_rotation, hvo1, hoid, require_block, hdef, horot, hext, if_true, hseek0]
  refine ⟨e1.trans e2.symm, ?_⟩
  rw [e2]
  split
  · simp
  · split
    · simp
    · exact set_rotation_extended_fault K chunks d vo.state origin index

/-- Instance of C10: in the concrete world, `set_rotation` on the segment `(6, 0, 5)` of
the beam and on its origin `(5, 0, 5)` give the same outcome. -/
theorem set_rotation_resolves_origin_witness :
    (demo_world.blocks 1 = some demo_beam ∧ demo_beam.rt.extended = true ∧
      well_formed demo_constants demo_world demo_beam 1 0 ⟨5, 0, 5⟩) ∧
    (set_rotation demo_constants 2 demo_world 6 0 5 1
        = set_rotation demo_constants 2 demo_world 5 0 5 1 ∧
      (set_rotation demo_constants 2 demo_world 5 0 5 1).fault ≠ some Fault.out_of_fuel) :=
  ⟨⟨rfl, rfl, by decide⟩,
    set_rotation_resolves_origin demo_constants 2 demo_world demo_beam 1 0 ⟨5, 0, 5⟩ 1 1 0 0
      rfl rfl (by decide) (by decide) (by decide) (by decide) (by decide)⟩

/-- C2: after a successful `set_rotation_extended` (the check accepted the new
footprint) on a well-formed extended block whose target rotation has orthonormal axes,
`seek_origin` called from any cell of the new footprint with that cell's stored state
returns the origin passed to the call (given fuel at least the largest size component),
and the voxel at that origin has segment code 0. -/
theorem set_rotation_extended_seek_origin (K : Constants) (hW : 0 < K.CHUNK_W)
    (hD : 0 < K.CHUNK_D) (fuel : Nat) (chunks : Storage) (d : Block) (state : blockstate)
    (origin : ivec3) (index : Nat)
    (hcheck : check_replaceability K chunks d ⟨index, state.segment, state.userbits⟩ origin
      d.rt.id = .ok true)
    (hwf : well_formed K chunks d d.rt.id state.rotation origin)
    (horth : (d.rotations.variants index).orthonormal)
    (hfuel : d.size.x ≤ fuel ∧ d.size.y ≤ fuel ∧ d.size.z ≤ fuel)
    (sx sy sz : Int)
    (hx : 0 ≤ sx ∧ sx < d.size.x) (hy : 0 ≤ sy ∧ sy < d.size.y)
    (hz : 0 ≤ sz ∧ sz < d.size.z) :
    (∃ vox,
      get K (set_rotation_extended K chunks d state origin index).chunks
        (segment_pos origin (d.rotations.variants index) ⟨sx, sy, sz⟩).x
        (segment_pos origin (d.rotations.variants index) ⟨sx, sy, sz⟩).y
        (segment_pos origin (d.rotations.variants index) ⟨sx, sy, sz⟩).z = some vox ∧
      seek_origin K (set_rotation_extended K chunks d state origin index).chunks fuel
        (segment_pos origin (d.rotations.variants index) ⟨sx, sy, sz⟩) d vox.state
        = some origin) ∧
    (∃ vo,
      get K (set_rotation_extended K chunks d state origin index).chunks
        origin.x origin.y origin.z = some vo ∧
      vo.state.segment = 0) := by
  obtain ⟨_, hnew, _⟩ :=
    set_rotation_extended_post K hW hD chunks d state origin index hcheck hwf horth
  have hwf1 : well_formed K (set_rotation_extended K chunks d state origin index).chunks d
      d.rt.id index origin := by
    intro s hs
    exact ⟨_, hnew s hs, rfl, rfl, rfl⟩
  have hs : (⟨sx, sy, sz⟩ : ivec3) ∈ offsets d.size := (mem_offsets d.size _).2 ⟨hx, hy, hz⟩
  have h0 : (⟨0, 0, 0⟩ : ivec3) ∈ offsets d.size :=
    (mem_offsets d.size _).2 ⟨⟨le_refl 0, by show (0 : Int) < d.size.x; omega⟩,
      ⟨le_refl 0, by show (0 : Int) < d.size.y; omega⟩, le_refl 0,
      by show (0 : Int) < d.size.z; omega⟩
  constructor
  · refine ⟨_, hnew _ hs, ?_⟩
    unfold seek_origin
    exact seek_origin_loop_well_formed K _ d d.rt.id index origin hwf1 fuel _ hs
      (by simp only; omega) (by simp only; omega) (by simp only; omega)
  · have h := hnew _ h0
    rw [segment_pos_zero] at h
    exact ⟨_, h, (segment_to_int_eq_zero 0 0 0).2 ⟨by decide, by decide, by decide⟩⟩

/-- Instance of C2: the beam of the concrete world rotated from rotation 0 to rotation 1;
`seek_origin` from the new segment `(5, 0, 6)` returns the origin `(5, 0, 5)`. -/
theorem set_rotation_extended_seek_origin_witness :
    ((0 < demo_constants.CHUNK_W ∧ 0 < demo_constants.CHUNK_D) ∧
      check_replaceability demo_constants demo_world demo_beam ⟨1, 0, 0⟩ ⟨5, 0, 5⟩
        demo_beam.rt.id = .ok true ∧
      well_formed demo_constants demo_world demo_beam demo_beam.rt.id 0 ⟨5, 0, 5⟩ ∧
      (demo_beam.rotations.variants 1).orthonormal) ∧
    ((∃ vox,
      get demo_constants (set_rotation_extended demo_constants demo_world demo_beam
        ⟨0, 0, 0⟩ ⟨5, 0, 5⟩ 1).chunks 5 0 6 = some vox ∧
      seek_origin demo_constants (set_rotation_extended demo_constants demo_world demo_beam
        ⟨0, 0, 0⟩ ⟨5, 0, 5⟩ 1).chunks 2 ⟨5, 0, 6⟩ demo_beam vox.state = some ⟨5, 0, 5⟩) ∧
    (∃ vo,
      get demo_constants (set_rotation_extended demo_constants demo_world demo_beam
        ⟨0, 0, 0⟩ ⟨5, 0, 5⟩ 1).chunks 5 0 5 = some vo ∧
      vo.state.segment = 0)) :=
  ⟨⟨⟨by decide, by decide⟩, by decide, by decide, by decide⟩,
    set_rotation_extended_seek_origin demo_constants (by decide) (by decide) 2 demo_world
      demo_beam ⟨0, 0, 0⟩ ⟨5, 0, 5⟩ 1 (by decide) (by decide) (by decide) (by decide)
      1 0 0 (by decide) (by decide) (by decide)⟩

/-- C3: postcondition of a successful `set_rotation_extended` on a well-formed extended
block whose target rotation has orthonormal axes. Every cell
`origin + axisX*sx + axisY*sy + axisZ*sz` of the new footprint holds id `def.rt.id`, the
target rotation and segment code `segment_to_int(sx, sy, sz)`; every cell of the old
footprint that is not a cell of the new footprint holds id 0. -/
theorem set_rotation_extended_moves (K : Constants) (hW : 0 < K.CHUNK_W)
    (hD : 0 < K.CHUNK_D) (chunks : Storage) (d : Block) (state : blockstate)
    (origin : ivec3) (index : Nat)
    (hcheck : check_replaceability K chunks d ⟨index, state.segment, state.userbits⟩ origin
      d.rt.id = .ok true)
    (hwf : well_formed K chunks d d.rt.id state.rotation origin)
    (horth : (d.rotations.variants index).orthonormal) :
    (∀ sx sy sz : Int, 0 ≤ sx ∧ sx < d.size.x → 0 ≤ sy ∧ sy < d.size.y →
      0 ≤ sz ∧ sz < d.size.z →
      ∃ vox,
        get K (set_rotation_extended K chunks d state origin index).chunks
          (segment_pos origin (d.rotations.variants index) ⟨sx, sy, sz⟩).x
          (segment_pos origin (d.rotations.variants index) ⟨sx, sy, sz⟩).y
          (segment_pos origin (d.rotations.variants index) ⟨sx, sy, sz⟩).z = some vox ∧
        vox.id = d.rt.id ∧ vox.state.rotation = index ∧
        vox.state.segment = segment_to_int sx sy sz) ∧
    (∀ q ∈ footprint origin (d.rotations.variants state.rotation) d.size,
      q ∉ footprint origin (d.rotations.variants index) d.size →
      ∃ vox,
        get K (set_rotation_extended K chunks d state origin index).chunks q.x q.y q.z
          = some vox ∧
        vox.id = 0) := by
  obtain ⟨_, hnew, hold⟩ :=
    set_rotation_extended_post K hW hD chunks d state origin index hcheck hwf horth
  constructor
  · intro sx sy sz hx hy hz
    exact ⟨_, hnew _ ((mem_offsets d.size _).2 ⟨hx, hy, hz⟩), rfl, rfl, rfl⟩
  · intro q hq hnq
    exact ⟨_, hold q hq hnq, rfl⟩

/-- Instance of C3: the 2 x 1 x 1 beam at origin `(5, 0, 5)` rotated from rotation 0
(axisX = +X) to rotation 1 (axisX = +Z) ends with its segment at `(5, 0, 6)` and the cell
`(6, 0, 5)` empty. -/
theorem set_rotation_extended_moves_witness :
    ((0 < demo_constants.CHUNK_W ∧ 0 < demo_constants.CHUNK_D) ∧
      check_replaceability demo_constants demo_world demo_beam ⟨1, 0, 0⟩ ⟨5, 0, 5⟩
        demo_beam.rt.id = .ok true ∧
      well_formed demo_constants demo_world demo_beam demo_beam.rt.id 0 ⟨5, 0, 5⟩ ∧
      (demo_beam.rotations.variants 1).orthonormal) ∧
    ((∃ vox,
      get demo_constants (set_rotation_extended demo_constants demo_world demo_beam
        ⟨0, 0, 0⟩ ⟨5, 0, 5⟩ 1).chunks 5 0 6 = some vox ∧
      vox.id = 1 ∧ vox.state.rotation = 1 ∧ vox.state.segment = 1) ∧
    (∃ vox,
      get demo_constants (set_rotation_extended demo_constants demo_world demo_beam
        ⟨0, 0, 0⟩ ⟨5, 0, 5⟩ 1).chunks 6 0 5 = some vox ∧
      vox.id = 0)) :=
  ⟨⟨⟨by decide, by decide⟩, by decide, by decide, by decide⟩,
    (set_rotation_extended_moves demo_constants (by decide) (by decide) demo_world demo_beam
      ⟨0, 0, 0⟩ ⟨5, 0, 5⟩ 1 (by decide) (by decide) (by decide)).1 1 0 0 (by decide)
      (by decide) (by decide),
    (set_rotation_extended_moves demo_constants (by decide) (by decide) demo_world demo_beam
      ⟨0, 0, 0⟩ ⟨5, 0, 5⟩ 1 (by decide) (by decide) (by decide)).2 ⟨6, 0, 5⟩ (by decide)
      (by decide)⟩

/-! ## Rejected rotations, the frame of a rotation, and the unchecked origin -/

/-- C11: `set_rotation` is a no-op in each rejected case. If the target cell is absent, or
the block at the cell is not rotatable, or the rotation of the cell already equals the
index, the storage after the call, voxels and modified flags alike, is the storage before
the call; and the call returns normally whenever the id at the cell is registered. -/
theorem set_rotation_rejected (K : Constants) (fuel : Nat) (chunks : Storage) (x y z : Int)
    (index : Nat)
    (h : get K chunks x y z = none ∨
      ∃ vox, get K chunks x y z = some vox ∧
        ((∃ d, chunks.blocks vox.id = some d ∧ d.rotatable = false) ∨
          vox.state.rotation = index)) :
    (set_rotation K fuel chunks x y z index).chunks = chunks ∧
    ((∀ vox, get K chunks x y z = some vox → (chunks.blocks vox.id).isSome = true) →
      (set_rotation K fuel chunks x y z index).fault = none) := by
  unfold set_rotation
  by_cases hi : index ≥ K.MAX_COUNT
  · rw [if_pos hi]
    exact ⟨rfl, fun _ => rfl⟩
  · rw [if_neg hi]
    rcases h with h | ⟨vox, hv, h⟩
    · simp only [h]
      exact ⟨trivial, fun _ => trivial⟩
    · simp only [hv, require_block]
      cases hb : chunks.blocks vox.id with
      | none =>
        refine ⟨rfl, fun hreg => ?_⟩
        have := hreg vox rfl
        rw [hb] at this
        cases this
      | some d =>
        have hc : (!d.rotatable || vox.state.rotation == index) = true := by
          rcases h with ⟨d1, hd1, hr⟩ | hr
          · rw [hb] at hd1
            cases hd1
            rw [hr]
            rfl
          · rw [hr, beq_self_eq_true, Bool.or_true]
        simp only [hc, if_true]
        exact ⟨trivial, fun _ => trivial⟩

/-- Instance of C11: the cell `(7, 0, 7)` of the concrete world holds air, which is not
rotatable. -/
theorem set_rotation_rejected_witness :
    (get demo_constants demo_world 7 0 7 = none ∨
      ∃ vox, get demo_constants demo_world 7 0 7 = some vox ∧
        ((∃ d, demo_world.blocks vox.id = some d ∧ d.rotatable = false) ∨
          vox.state.rotation = 1)) ∧
    (set_rotation demo_constants 2 demo_world 7 0 7 1).chunks = demo_world :=
  ⟨Or.inr ⟨⟨0, blockstate.zero⟩, by decide, Or.inl ⟨demo_air, rfl, rfl⟩⟩,
    (set_rotation_rejected demo_constants 2 demo_world 7 0 7 1
      (Or.inr ⟨⟨0, blockstate.zero⟩, by decide, Or.inl ⟨demo_air, rfl, rfl⟩⟩)).1⟩

/-- C16 (failing input): the cell `(0, 0, 5)` is loaded and holds a segment of a rotatable
extended block with rotation 0, the index 1 is in range, yet the position `seek_origin`
returns, `(-1, 0, 5)`, is not loaded: `get` is null there and `set_rotation` ends by
dereferencing that null pointer. -/
theorem set_rotation_unloaded_origin :
    get demo_constants demo_world_edge 0 0 5 = some ⟨1, ⟨0, 1, 0⟩⟩ ∧
    demo_world_edge.blocks 1 = some demo_beam ∧
    demo_beam.rotatable = true ∧ demo_beam.rt.extended = true ∧
    1 < demo_constants.MAX_COUNT ∧
    seek_origin demo_constants demo_world_edge 2 ⟨0, 0, 5⟩ demo_beam ⟨0, 1, 0⟩
      = some ⟨-1, 0, 5⟩ ∧
    get demo_constants demo_world_edge (-1) 0 5 = none ∧
    (set_rotation demo_constants 2 demo_world_edge 0 0 5 1).fault = some Fault.null_deref :=
  ⟨by decide, rfl, rfl, rfl, by decide, by decide, by decide, by decide⟩

/-- C18: frame of `set_rotation_extended`. A position that is a cell of neither the old
footprint (under `state.rotation`) nor the new footprint (under `index`) reads the same
voxel, id and state, after the call as before, whether the rotation is carried out,
rejected, or ends in a fault. -/
theorem set_rotation_extended_frame (K : Constants) (hW : 0 < K.CHUNK_W) (hD : 0 < K.CHUNK_D)
    (chunks : Storage) (d : Block) (state : blockstate) (origin : ivec3) (index : Nat)
    (q : ivec3)
    (hold : q ∉ footprint origin (d.rotations.variants state.rotation) d.size)
    (hnew : q ∉ footprint origin (d.rotations.variants index) d.size) :
    get K (set_rotation_extended K chunks d state origin index).chunks q.x q.y q.z
      = get K chunks q.x q.y q.z := by
  have hframe := write_segments_frame K hW hD d ⟨index, state.segment, state.userbits⟩ origin
    (d.rotations.variants index) q (offsets d.size) chunks []
    (fun s hs heq => hnew (heq ▸ List.mem_map_of_mem _ hs))
  cases hcr : check_replaceability K chunks d ⟨index, state.segment, state.userbits⟩ origin
      d.rt.id with
  | error e => simp only [set_rotation_extended, hcr]
  | ok b =>
    cases b with
    | false => simp only [set_rotation_extended, hcr]
    | true =>
      simp only [set_rotation_extended, hcr]
      cases hw : write_segments K d ⟨index, state.segment, state.userbits⟩ origin
          (d.rotations.variants index) (offsets d.size) chunks [] with
      | mk c1 sb f =>
        rw [hw] at hframe
        simp only at hframe
        cases f with
        | some e => exact hframe
        | none =>
          simp only
          rw [clear_segments_keeps K hW hD origin _ sb q (offsets d.size) c1
            (fun s hs heq => absurd (heq ▸ List.mem_map_of_mem _ hs) hold)]
          exact hframe

/-- Instance of C18: rotating the beam of the concrete world from rotation 0 to rotation 1
leaves the cell `(7, 0, 7)`, outside both footprints, as it was. -/
theorem set_rotation_extended_frame_witness :
    ((0 < demo_constants.CHUNK_W ∧ 0 < demo_constants.CHUNK_D) ∧
      (⟨7, 0, 7⟩ : ivec3) ∉ footprint ⟨5, 0, 5⟩ (demo_beam.rotations.variants 0)
        demo_beam.size ∧
      (⟨7, 0, 7⟩ : ivec3) ∉ footprint ⟨5, 0, 5⟩ (demo_beam.rotations.variants 1)
        demo_beam.size) ∧
    get demo_constants (set_rotation_extended demo_constants demo_world demo_beam ⟨0, 0, 0⟩
      ⟨5, 0, 5⟩ 1).chunks 7 0 7 = get demo_constants demo_world 7 0 7 :=
  ⟨⟨⟨by decide, by decide⟩, by decide, by decide⟩,
    set_rotation_extended_frame demo_constants (by decide) (by decide) demo_world demo_beam
      ⟨0, 0, 0⟩ ⟨5, 0, 5⟩ 1 ⟨7, 0, 7⟩ (by decide) (by decide)⟩

/-! ## `erase_segments` and `repair_segments` -/

theorem nat_lor_eq_zero (a b : Nat) : a ||| b = 0 ↔ a = 0 ∧ b = 0 := by
  constructor
  · intro h
    have h1 : ∀ i, (a ||| b).testBit i = false := by
      intro i
      rw [h]
      exact Nat.zero_testBit i
    simp only [Nat.testBit_or, Bool.or_eq_false_iff] at h1
    exact ⟨Nat.eq_of_testBit_eq (fun i => by rw [(h1 i).1, Nat.zero_testBit]),
      Nat.eq_of_testBit_eq (fun i => by rw [(h1 i).2, Nat.zero_testBit])⟩
  · rintro ⟨rfl, rfl⟩
    rfl

/-- The loop test `(sx | sy | sz) == 0` on loop counters, which are never negative, holds
exactly at the offset `(0, 0, 0)`. -/
theorem lor_offsets_eq_zero (s : ivec3) (hx : 0 ≤ s.x) (hy : 0 ≤ s.y) (hz : 0 ≤ s.z) :
    Int.lor (Int.lor s.x s.y) s.z = 0 ↔ s = ⟨0, 0, 0⟩ := by
  obtain ⟨sx, sy, sz⟩ := s
  simp only at hx hy hz
  obtain ⟨a, rfl⟩ := Int.eq_ofNat_of_zero_le hx
  obtain ⟨b, rfl⟩ := Int.eq_ofNat_of_zero_le hy
  obtain ⟨c, rfl⟩ := Int.eq_ofNat_of_zero_le hz
  have e : Int.lor (Int.lor (a : Int) (b : Int)) (c : Int) = ((a ||| b ||| c : Nat) : Int) := rfl
  simp only [e, ivec3.mk.injEq]
  constructor
  · intro h
    have h1 : a ||| b ||| c = 0 := by exact_mod_cast h
    obtain ⟨h2, h3⟩ := (nat_lor_eq_zero _ _).1 h1
    obtain ⟨h4, h5⟩ := (nat_lor_eq_zero _ _).1 h2
    subst h3 h4 h5
    exact ⟨rfl, rfl, rfl⟩
  · rintro ⟨h1, h2, h3⟩
    have h4 : a = 0 := by exact_mod_cast h1
    have h5 : b = 0 := by exact_mod_cast h2
    have h6 : c = 0 := by exact_mod_cast h3
    subst h4 h5 h6
    rfl

theorem mem_segment_offsets (size s : ivec3) :
    s ∈ segment_offsets size ↔ s ∈ offsets size ∧ s ≠ ⟨0, 0, 0⟩ := by
  simp only [segment_offsets, List.mem_filter, decide_eq_true_eq]

theorem mem_segment_cells (origin : ivec3) (rotation : BlockRotation) (size q : ivec3) :
    q ∈ segment_cells origin rotation size ↔
      ∃ s ∈ offsets size, s ≠ ⟨0, 0, 0⟩ ∧ segment_pos origin rotation s = q := by
  simp only [segment_cells, List.mem_map, mem_segment_offsets]
  constructor
  · rintro ⟨s, ⟨h1, h2⟩, h3⟩
    exact ⟨s, h1, h2, h3⟩
  · rintro ⟨s, h1, h2, h3⟩
    exact ⟨s, ⟨h1, h2⟩, h3⟩

/-- Frame of a sequence of `set` calls. -/
theorem set_cells_frame (K : Constants) (hW : 0 < K.CHUNK_W) (hD : 0 < K.CHUNK_D)
    (q : ivec3) (l : List (ivec3 × voxel)) :
    ∀ chunks : Storage, (∀ e ∈ l, e.1 ≠ q) →
      get K (set_cells K l chunks) q.x q.y q.z = get K chunks q.x q.y q.z := by
  induction l with
  | nil =>
    intro chunks _
    rfl
  | cons e rest ih =>
    intro chunks hq
    simp only [set_cells]
    rw [ih _ (fun e1 he1 => hq e1 (List.mem_cons_of_mem e he1)), get_set K hW hD,
      if_neg (fun hc => hq e (List.mem_cons_self e rest) hc.1)]

/-- A sequence of `set` calls does not change which cells are loaded. -/
theorem set_cells_isSome (K : Constants) (hW : 0 < K.CHUNK_W) (hD : 0 < K.CHUNK_D)
    (q : ivec3) (l : List (ivec3 × voxel)) :
    ∀ chunks : Storage,
      (get K (set_cells K l chunks) q.x q.y q.z).isSome = (get K chunks q.x q.y q.z).isSome := by
  induction l with
  | nil =>
    intro chunks
    rfl
  | cons e rest ih =>
    intro chunks
    simp only [set_cells]
    rw [ih, get_set_isSome K hW hD]

/-- A loaded cell that the calls write, always with the same voxel, ends up holding it. -/
theorem set_cells_value (K : Constants) (hW : 0 < K.CHUNK_W) (hD : 0 < K.CHUNK_D)
    (q : ivec3) (v : voxel) (l : List (ivec3 × voxel)) :
    ∀ chunks : Storage,
      (get K chunks q.x q.y q.z).isSome = true →
      (∃ e ∈ l, e.1 = q) → (∀ e ∈ l, e.1 = q → e.2 = v) →
      get K (set_cells K l chunks) q.x q.y q.z = some v := by
  induction l with
  | nil =>
    rintro chunks _ ⟨e, he, _⟩
    cases he
  | cons a rest ih =>
    intro chunks hload hex hall
    simp only [set_cells]
    by_cases hrest : ∃ e ∈ rest, e.1 = q
    · apply ih _ _ hrest (fun e he => hall e (List.mem_cons_of_mem a he))
      rw [get_set_isSome K hW hD]
      exact hload
    · have ha : a.1 = q := by
        obtain ⟨e, he, heq⟩ := hex
        rcases List.mem_cons.1 he with h1 | h1
        · rw [← h1]
          exact heq
        · exact absurd ⟨e, h1, heq⟩ hrest
      rw [set_cells_frame K hW hD q rest _ (fun e he heq => hrest ⟨e, he, heq⟩)]
      obtain ⟨vox, hv⟩ := Option.isSome_iff_exists.mp hload
      have hav := hall a (List.mem_cons_self a rest) ha
      rw [ha, hav]
      exact get_set_same K chunks q.x q.y q.z v.id v.state vox hv

/-- The loops of `repair_segments` are the `set` calls for the offsets other than
`(0, 0, 0)`, in loop order. -/
theorem repair_cells_eq (K : Constants) (id : Nat) (state : blockstate) (origin : ivec3)
    (rotation : BlockRotation) (l : List ivec3) :
    ∀ chunks : Storage, (∀ s ∈ l, 0 ≤ s.x ∧ 0 ≤ s.y ∧ 0 ≤ s.z) →
      repair_cells K id state origin rotation l chunks =
        set_cells K
          ((l.filter fun s => decide (s ≠ ⟨0, 0, 0⟩)).map fun s =>
            (segment_pos origin rotation s,
              ⟨id, ⟨state.rotation, segment_to_int s.x s.y s.z, state.userbits⟩⟩))
          chunks := by
  induction l with
  | nil =>
    intro chunks _
    rfl
  | cons a rest ih =>
    intro chunks hl
    obtain ⟨hx, hy, hz⟩ := hl a (List.mem_cons_self a rest)
    have hrest : ∀ s ∈ rest, 0 ≤ s.x ∧ 0 ≤ s.y ∧ 0 ≤ s.z :=
      fun s hs => hl s (List.mem_cons_of_mem a hs)
    by_cases h0 : a = ⟨0, 0, 0⟩
    · have hl0 := (lor_offsets_eq_zero a hx hy hz).2 h0
      simp only [repair_cells, hl0, if_true]
      rw [ih _ hrest, List.filter_cons_of_neg (by simp [h0])]
    · have hl0 : ¬ Int.lor (Int.lor a.x a.y) a.z = 0 :=
        fun hc => h0 ((lor_offsets_eq_zero a hx hy hz).1 hc)
      simp only [repair_cells, hl0, if_false]
      rw [ih _ hrest, List.filter_cons_of_pos (by simp [h0])]
      rfl

/-- The loops of `erase_segments` are the `set` calls that empty the cells of the offsets
other than `(0, 0, 0)`, in loop order. -/
theorem erase_cells_eq (K : Constants) (origin : ivec3) (rotation : BlockRotation)
    (l : List ivec3) :
    ∀ chunks : Storage, (∀ s ∈ l, 0 ≤ s.x ∧ 0 ≤ s.y ∧ 0 ≤ s.z) →
      erase_cells K origin rotation l chunks =
        set_cells K
          ((l.filter fun s => decide (s ≠ ⟨0, 0, 0⟩)).map fun s =>
            (segment_pos origin rotation s, ⟨0, blockstate.zero⟩))
          chunks := by
  induction l with
  | nil =>
    intro chunks _
    rfl
  | cons a rest ih =>
    intro chunks hl
    obtain ⟨hx, hy, hz⟩ := hl a (List.mem_cons_self a rest)
    have hrest : ∀ s ∈ rest, 0 ≤ s.x ∧ 0 ≤ s.y ∧ 0 ≤ s.z :=
      fun s hs => hl s (List.mem_cons_of_mem a hs)
    by_cases h0 : a = ⟨0, 0, 0⟩
    · have hl0 := (lor_offsets_eq_zero a hx hy hz).2 h0
      simp only [erase_cells, hl0, if_true]
      rw [ih _ hrest, List.filter_cons_of_neg (by simp [h0])]
    · have hl0 : ¬ Int.lor (Int.lor a.x a.y) a.z = 0 :=
        fun hc => h0 ((lor_offsets_eq_zero a hx hy hz).1 hc)
      simp only [erase_cells, hl0, if_false]
      rw [ih _ hrest, List.filter_cons_of_pos (by simp [h0])]
      rfl

theorem offsets_nonneg (size : ivec3) : ∀ s ∈ offsets size, 0 ≤ s.x ∧ 0 ≤ s.y ∧ 0 ≤ s.z := by
  intro s hs
  obtain ⟨⟨hx, _⟩, ⟨hy, _⟩, hz, _⟩ := (mem_offsets size s).1 hs
  exact ⟨hx, hy, hz⟩

theorem repair_segments_eq (K : Constants) (chunks : Storage) (d : Block) (state : blockstate)
    (x y z : Int) :
    repair_segments K chunks d state x y z =
      set_cells K
        ((segment_offsets d.size).map fun s =>
          (segment_pos ⟨x, y, z⟩ (d.rotations.variants state.rotation) s,
            ⟨d.rt.id, ⟨state.rotation, segment_to_int s.x s.y s.z, state.userbits⟩⟩))
        chunks :=
  repair_cells_eq K d.rt.id state ⟨x, y, z⟩ _ (offsets d.size) chunks (offsets_nonneg d.size)

theorem erase_segments_eq (K : Constants) (chunks : Storage) (d : Block) (state : blockstate)
    (x y z : Int) :
    erase_segments K chunks d state x y z =
      set_cells K
        ((segment_offsets d.size).map fun s =>
          (segment_pos ⟨x, y, z⟩ (d.rotations.variants state.rotation) s,
            ⟨0, blockstate.zero⟩))
        chunks :=
  erase_cells_eq K ⟨x, y, z⟩ _ (offsets d.size) chunks (offsets_nonneg d.size)

theorem segment_to_int_eq_sum (sx sy sz : Int) :
    segment_to_int sx sy sz =
      (if sx > 0 then 1 else 0) + (if sy > 0 then 2 else 0) + (if sz > 0 then 4 else 0) := by
  unfold segment_to_int
  by_cases hx : sx > 0 <;> by_cases hy : sy > 0 <;> by_cases hz : sz > 0 <;>
    simp only [hx, hy, hz, if_true, if_false] <;> decide

/-- Under orthonormal axes no offset other than `(0, 0, 0)` lands on the origin cell. -/
theorem origin_not_segment_cell (origin : ivec3) (rotation : BlockRotation) (size : ivec3)
    (horth : rotation.orthonormal) : origin ∉ segment_cells origin rotation size := by
  intro h
  obtain ⟨s, _, hne, heq⟩ := (mem_segment_cells origin rotation size origin).1 h
  apply hne
  apply segment_pos_injective rotation horth origin
  rw [heq, segment_pos_zero]

/-- Frame of `repair_segments`: a position that is no segment cell is not changed. -/
theorem repair_segments_keeps (K : Constants) (hW : 0 < K.CHUNK_W) (hD : 0 < K.CHUNK_D)
    (chunks : Storage) (d : Block) (state : blockstate) (x y z : Int) (q : ivec3)
    (hq : q ∉ segment_cells ⟨x, y, z⟩ (d.rotations.variants state.rotation) d.size) :
    get K (repair_segments K chunks d state x y z) q.x q.y q.z = get K chunks q.x q.y q.z := by
  rw [repair_segments_eq]
  apply set_cells_frame K hW hD
  intro e he heq
  obtain ⟨s, hs, hes⟩ := List.mem_map.1 he
  apply hq
  rw [← heq, ← hes]
  exact List.mem_map_of_mem _ hs

/-- What `repair_segments` leaves in a loaded segment cell, under orthonormal axes. -/
theorem repair_segments_value (K : Constants) (hW : 0 < K.CHUNK_W) (hD : 0 < K.CHUNK_D)
    (chunks : Storage) (d : Block) (state : blockstate) (x y z : Int)
    (horth : (d.rotations.variants state.rotation).orthonormal) (s : ivec3)
    (hs : s ∈ offsets d.size) (hne : s ≠ ⟨0, 0, 0⟩)
    (hload : (get K chunks
      (segment_pos ⟨x, y, z⟩ (d.rotations.variants state.rotation) s).x
      (segment_pos ⟨x, y, z⟩ (d.rotations.variants state.rotation) s).y
      (segment_pos ⟨x, y, z⟩ (d.rotations.variants state.rotation) s).z).isSome = true) :
    get K (repair_segments K chunks d state x y z)
      (segment_pos ⟨x, y, z⟩ (d.rotations.variants state.rotation) s).x
      (segment_pos ⟨x, y, z⟩ (d.rotations.variants state.rotation) s).y
      (segment_pos ⟨x, y, z⟩ (d.rotations.variants state.rotation) s).z
      = some ⟨d.rt.id, ⟨state.rotation, segment_to_int s.x s.y s.z, state.userbits⟩⟩ := by
  rw [repair_segments_eq]
  apply set_cells_value K hW hD _ _ _ _ hload
  · exact ⟨_, List.mem_map_of_mem _ ((mem_segment_offsets d.size s).2 ⟨hs, hne⟩), rfl⟩
  · intro e he heq
    obtain ⟨t, _, het⟩ := List.mem_map.1 he
    rw [← het] at heq ⊢
    simp only at heq
    have hts := segment_pos_injective _ horth ⟨x, y, z⟩ t s heq
    rw [hts]

/-- Frame of `erase_segments`: a position that is no segment cell is not changed. -/
theorem erase_segments_keeps (K : Constants) (hW : 0 < K.CHUNK_W) (hD : 0 < K.CHUNK_D)
    (chunks : Storage) (d : Block) (state : blockstate) (x y z : Int) (q : ivec3)
    (hq : q ∉ segment_cells ⟨x, y, z⟩ (d.rotations.variants state.rotation) d.size) :
    get K (erase_segments K chunks d state x y z) q.x q.y q.z = get K chunks q.x q.y q.z := by
  rw [erase_segments_eq]
  apply set_cells_frame K hW hD
  intro e he heq
  obtain ⟨s, hs, hes⟩ := List.mem_map.1 he
  apply hq
  rw [← heq, ← hes]
  exact List.mem_map_of_mem _ hs

/-- A loaded segment cell is empty after `erase_segments`. -/
theorem erase_segments_value (K : Constants) (hW : 0 < K.CHUNK_W) (hD : 0 < K.CHUNK_D)
    (chunks : Storage) (d : Block) (state : blockstate) (x y z : Int) (q : ivec3)
    (hq : q ∈ segment_cells ⟨x, y, z⟩ (d.rotations.variants state.rotation) d.size)
    (hload : (get K chunks q.x q.y q.z).isSome = true) :
    get K (erase_segments K chunks d state x y z) q.x q.y q.z
      = some ⟨0, blockstate.zero⟩ := by
  rw [erase_segments_eq]
  apply set_cells_value K hW hD _ _ _ _ hload
  · obtain ⟨s, hs, hqs⟩ := List.mem_map.1 hq
    exact ⟨_, List.mem_map_of_mem _ hs, hqs⟩
  · intro e he _
    obtain ⟨t, _, het⟩ := List.mem_map.1 he
    rw [← het]

theorem repair_segments_isSome (K : Constants) (hW : 0 < K.CHUNK_W) (hD : 0 < K.CHUNK_D)
    (chunks : Storage) (d : Block) (state : blockstate) (x y z : Int) (q : ivec3) :
    (get K (repair_segments K chunks d state x y z) q.x q.y q.z).isSome
      = (get K chunks q.x q.y q.z).isSome := by
  rw [repair_segments_eq]
  exact set_cells_isSome K hW hD q _ chunks

/-! ## The length of the backward walk -/

/-- The counting loop visits the positions of `seek_origin`. -/
theorem seek_origin_count_fst (K : Constants) (chunks : Storage) (rotation : BlockRotation) :
    ∀ (fuel : Nat) (pos : ivec3) (segment steps : Nat),
      (seek_origin_count K chunks rotation fuel pos segment steps).map Prod.fst
        = seek_origin_loop K chunks rotation fuel pos segment := by
  intro fuel
  induction fuel with
  | zero =>
    intro pos segment steps
    rfl
  | succ n ih =>
    intro pos segment steps
    unfold seek_origin_count seek_origin_loop
    by_cases h0 : segment = 0
    · simp only [h0, if_true, Option.map_some']
    · simp only [h0, if_false]
      split
      · exact ih _ _ _
      · rfl

/-- On a footprint whose segment codes are laid out around the origin, the walk from the
cell at offset `s` reaches the origin after as many steps as the largest component of
`s`. -/
theorem seek_origin_count_laid (K : Constants) (chunks : Storage) (origin : ivec3)
    (rotation : BlockRotation) (size : ivec3)
    (hlaid : segments_laid K chunks origin rotation size) :
    ∀ (fuel : Nat) (s : ivec3) (k : Nat), s ∈ offsets size →
      max s.x (max s.y s.z) < fuel →
      seek_origin_count K chunks rotation fuel (segment_pos origin rotation s)
        (segment_to_int s.x s.y s.z) k
        = some (origin, k + (max s.x (max s.y s.z)).toNat) := by
  intro fuel
  induction fuel with
  | zero =>
    intro s k hs hf
    have := (mem_offsets size s).1 hs
    omega
  | succ n ih =>
    intro s k hs hf
    obtain ⟨⟨hx0, hx1⟩, ⟨hy0, hy1⟩, hz0, hz1⟩ := (mem_offsets size s).1 hs
    unfold seek_origin_count
    by_cases h0 : segment_to_int s.x s.y s.z = 0
    · rw [if_pos h0]
      have h1 := (segment_to_int_eq_zero s.x s.y s.z).1 h0
      have hs0 : s = ⟨0, 0, 0⟩ :=
        ivec3.eq_of_components (by simp only; omega) (by simp only; omega)
          (by simp only; omega)
      rw [hs0, segment_pos_zero]
      rfl
    · rw [if_neg h0]
      have hpos : s.x > 0 ∨ s.y > 0 ∨ s.z > 0 := by
        by_contra hc
        apply h0
        rw [segment_to_int_eq_zero]
        omega
      simp only [segment_to_int_bit0, segment_to_int_bit1, segment_to_int_bit2]
      rw [segment_pos_step_back origin rotation s (s.x > 0) (s.y > 0) (s.z > 0)]
      have hx2 : 0 ≤ s.x - (if s.x > 0 then 1 else 0) ∧
          s.x - (if s.x > 0 then 1 else 0) < size.x := by
        split <;> omega
      have hy2 : 0 ≤ s.y - (if s.y > 0 then 1 else 0) ∧
          s.y - (if s.y > 0 then 1 else 0) < size.y := by
        split <;> omega
      have hz2 : 0 ≤ s.z - (if s.z > 0 then 1 else 0) ∧
          s.z - (if s.z > 0 then 1 else 0) < size.z := by
        split <;> omega
      have hmax : max (s.x - (if s.x > 0 then 1 else 0))
          (max (s.y - (if s.y > 0 then 1 else 0)) (s.z - (if s.z > 0 then 1 else 0)))
          = max s.x (max s.y s.z) - 1 := by
        omega
      have hs1 : (⟨s.x - (if s.x > 0 then 1 else 0), s.y - (if s.y > 0 then 1 else 0),
          s.z - (if s.z > 0 then 1 else 0)⟩ : ivec3) ∈ offsets size :=
        (mem_offsets size _).2 ⟨hx2, hy2, hz2⟩
      obtain ⟨vox, hv, hseg⟩ := hlaid _ hs1
      have hv1 : get K chunks _ _ _ = some vox := hv
      rw [hv1]
      simp only
      rw [hseg, ih _ (k + 1) hs1 (by simp only; omega)]
      simp only [hmax]
      congr 2
      omega

theorem well_formed_laid (K : Constants) (chunks : Storage) (d : Block) (id rot : Nat)
    (origin : ivec3) (hwf : well_formed K chunks d id rot origin) :
    segments_laid K chunks origin (d.rotations.variants rot) d.size := by
  intro s hs
  obtain ⟨vox, hv, _, _, hseg⟩ := hwf s hs
  exact ⟨vox, hv, hseg⟩

/-! ## Claims on `repair_segments`, `erase_segments` and the walk of `seek_origin` -/

/-- After `repair_segments` on a loaded footprint with orthonormal axes whose origin cell
has segment code 0, the segment codes are laid out around the origin. -/
theorem repair_segments_laid (K : Constants) (hW : 0 < K.CHUNK_W) (hD : 0 < K.CHUNK_D)
    (chunks : Storage) (d : Block) (state : blockstate) (x y z : Int)
    (horth : (d.rotations.variants state.rotation).orthonormal)
    (hload : footprint_loaded K chunks ⟨x, y, z⟩ (d.rotations.variants state.rotation) d.size)
    (horigin : ∃ vo ∈ get K chunks x y z, vo.state.segment = 0) :
    segments_laid K (repair_segments K chunks d state x y z) ⟨x, y, z⟩
      (d.rotations.variants state.rotation) d.size := by
  intro s hs
  by_cases h0 : s = ⟨0, 0, 0⟩
  · obtain ⟨vo, hvo, hseg⟩ := horigin
    refine ⟨vo, ?_, ?_⟩
    · rw [h0, segment_pos_zero]
      show get K (repair_segments K chunks d state x y z) x y z = some vo
      rw [repair_segments_keeps K hW hD chunks d state x y z ⟨x, y, z⟩
        (origin_not_segment_cell _ _ _ horth)]
      exact hvo
    · rw [hseg, h0]
      exact ((segment_to_int_eq_zero 0 0 0).2 ⟨by decide, by decide, by decide⟩).symm
  · exact ⟨_, repair_segments_value K hW hD chunks d state x y z horth s hs h0
      (hload _ (List.mem_map_of_mem _ hs)), rfl⟩

/-- C12: segment codes encode the offset from the origin. For a block whose rotation axes
are orthonormal and whose size is positive, an origin whose whole footprint is loaded and
whose origin cell has segment code 0: after `repair_segments` the origin is a cell of the
footprint, a footprint cell has segment code 0 exactly when it is the origin, and
`seek_origin` called from any footprint cell with that cell's stored state returns the
origin (given fuel at least the largest size component). -/
theorem repair_segments_seek_origin (K : Constants) (hW : 0 < K.CHUNK_W) (hD : 0 < K.CHUNK_D)
    (fuel : Nat) (chunks : Storage) (d : Block) (state : blockstate) (x y z : Int)
    (horth : (d.rotations.variants state.rotation).orthonormal)
    (hsize : 0 < d.size.x ∧ 0 < d.size.y ∧ 0 < d.size.z)
    (hload : footprint_loaded K chunks ⟨x, y, z⟩ (d.rotations.variants state.rotation) d.size)
    (horigin : ∃ vo ∈ get K chunks x y z, vo.state.segment = 0)
    (hfuel : d.size.x ≤ fuel ∧ d.size.y ≤ fuel ∧ d.size.z ≤ fuel) :
    (⟨x, y, z⟩ : ivec3) ∈ footprint ⟨x, y, z⟩ (d.rotations.variants state.rotation) d.size ∧
    ∀ q ∈ footprint ⟨x, y, z⟩ (d.rotations.variants state.rotation) d.size,
      ∃ vox, get K (repair_segments K chunks d state x y z) q.x q.y q.z = some vox ∧
        (vox.state.segment = 0 ↔ q = ⟨x, y, z⟩) ∧
        seek_origin K (repair_segments K chunks d state x y z) fuel q d vox.state
          = some ⟨x, y, z⟩ := by
  have hlaid := repair_segments_laid K hW hD chunks d state x y z horth hload horigin
  have h0mem : (⟨0, 0, 0⟩ : ivec3) ∈ offsets d.size :=
    (mem_offsets d.size _).2 ⟨⟨le_refl 0, hsize.1⟩, ⟨le_refl 0, hsize.2.1⟩, le_refl 0,
      hsize.2.2⟩
  constructor
  · have h := List.mem_map_of_mem
      (segment_pos ⟨x, y, z⟩ (d.rotations.variants state.rotation)) h0mem
    rw [segment_pos_zero] at h
    exact h
  · intro q hq
    obtain ⟨s, hs, hqs⟩ := List.mem_map.1 hq
    obtain ⟨⟨hx0, hx1⟩, ⟨hy0, hy1⟩, hz0, hz1⟩ := (mem_offsets d.size s).1 hs
    subst hqs
    by_cases h0 : s = ⟨0, 0, 0⟩
    · obtain ⟨vo, hvo, hseg⟩ := hlaid s hs
      have hvo1 : get K (repair_segments K chunks d state x y z) _ _ _ = some vo := hvo
      refine ⟨vo, hvo1, ?_, ?_⟩
      · rw [hseg, h0, segment_pos_zero]
        exact ⟨fun _ => rfl,
          fun _ => (segment_to_int_eq_zero 0 0 0).2 ⟨by decide, by decide, by decide⟩⟩
      · have hz : vo.state.segment = 0 := by
          rw [hseg, h0]
          exact (segment_to_int_eq_zero 0 0 0).2 ⟨by decide, by decide, by decide⟩
        rw [h0, segment_pos_zero]
        unfold seek_origin
        rw [hz]
        obtain ⟨n, hn⟩ : ∃ n, fuel = n + 1 := ⟨fuel - 1, by omega⟩
        rw [hn]
        simp only [seek_origin_loop, if_true]
    · have hval := repair_segments_value K hW hD chunks d state x y z horth s hs h0
        (hload _ (List.mem_map_of_mem _ hs))
      refine ⟨_, hval, ?_, ?_⟩
      · simp only
        rw [segment_to_int_eq_zero]
        constructor
        · intro h
          exfalso
          apply h0
          exact ivec3.eq_of_components (by simp only; omega) (by simp only; omega)
            (by simp only; omega)
        · intro h
          exfalso
          apply h0
          apply segment_pos_injective _ horth ⟨x, y, z⟩
          rw [h, segment_pos_zero]
      · unfold seek_origin
        simp only
        rw [← seek_origin_count_fst K _ _ fuel _ _ 0,
          seek_origin_count_laid K _ ⟨x, y, z⟩ _ d.size hlaid fuel s 0 hs (by omega)]
        rfl

/-- Instance of C12: the beam whose origin cell alone is placed at `(5, 0, 5)`; after
`repair_segments`, `seek_origin` from the segment `(6, 0, 5)` returns the origin. -/
theorem repair_segments_seek_origin_witness :
    ((0 < demo_constants.CHUNK_W ∧ 0 < demo_constants.CHUNK_D) ∧
      (demo_beam.rotations.variants 0).orthonormal ∧
      footprint_loaded demo_constants demo_world_origin ⟨5, 0, 5⟩
        (demo_beam.rotations.variants 0) demo_beam.size ∧
      (∃ vo ∈ get demo_constants demo_world_origin 5 0 5, vo.state.segment = 0)) ∧
    ∃ vox, get demo_constants
        (repair_segments demo_constants demo_world_origin demo_beam ⟨0, 0, 0⟩ 5 0 5) 6 0 5
        = some vox ∧
      (vox.state.segment = 0 ↔ (⟨6, 0, 5⟩ : ivec3) = ⟨5, 0, 5⟩) ∧
      seek_origin demo_constants
        (repair_segments demo_constants demo_world_origin demo_beam ⟨0, 0, 0⟩ 5 0 5) 2
        ⟨6, 0, 5⟩ demo_beam vox.state = some ⟨5, 0, 5⟩ :=
  ⟨⟨⟨by decide, by decide⟩, by decide, by decide, by decide⟩,
    (repair_segments_seek_origin demo_constants (by decide) (by decide) 2 demo_world_origin
      demo_beam ⟨0, 0, 0⟩ 5 0 5 (by decide) (by decide) (by decide) (by decide)
      (by decide)).2 ⟨6, 0, 5⟩ (by decide)⟩

/-- C13: `repair_segments` on a block with orthonormal axes. For every offset
`(sx, sy, sz)` within `def.size` other than `(0, 0, 0)` whose cell is loaded, the cell
`(x,y,z) + axisX*sx + axisY*sy + axisZ*sz` ends up with id `def.rt.id` and the given state
except for the segment code, which is `(sx>0 ? 1 : 0) + (sy>0 ? 2 : 0) + (sz>0 ? 4 : 0)`
and is never 0; the origin cell is not written. -/
theorem repair_segments_writes (K : Constants) (hW : 0 < K.CHUNK_W) (hD : 0 < K.CHUNK_D)
    (chunks : Storage) (d : Block) (state : blockstate) (x y z : Int)
    (horth : (d.rotations.variants state.rotation).orthonormal) :
    (∀ sx sy sz : Int, 0 ≤ sx ∧ sx < d.size.x → 0 ≤ sy ∧ sy < d.size.y →
      0 ≤ sz ∧ sz < d.size.z → ¬ (sx = 0 ∧ sy = 0 ∧ sz = 0) →
      (get K chunks
        (segment_pos ⟨x, y, z⟩ (d.rotations.variants state.rotation) ⟨sx, sy, sz⟩).x
        (segment_pos ⟨x, y, z⟩ (d.rotations.variants state.rotation) ⟨sx, sy, sz⟩).y
        (segment_pos ⟨x, y, z⟩ (d.rotations.variants state.rotation) ⟨sx, sy, sz⟩).z).isSome
        = true →
      get K (repair_segments K chunks d state x y z)
        (segment_pos ⟨x, y, z⟩ (d.rotations.variants state.rotation) ⟨sx, sy, sz⟩).x
        (segment_pos ⟨x, y, z⟩ (d.rotations.variants state.rotation) ⟨sx, sy, sz⟩).y
        (segment_pos ⟨x, y, z⟩ (d.rotations.variants state.rotation) ⟨sx, sy, sz⟩).z
        = some ⟨d.rt.id, ⟨state.rotation, segment_to_int sx sy sz, state.userbits⟩⟩ ∧
      segment_to_int sx sy sz =
        (if sx > 0 then 1 else 0) + (if sy > 0 then 2 else 0) + (if sz > 0 then 4 else 0) ∧
      segment_to_int sx sy sz ≠ 0) ∧
    get K (repair_segments K chunks d state x y z) x y z = get K chunks x y z := by
  constructor
  · intro sx sy sz hx hy hz hne hload
    have hs : (⟨sx, sy, sz⟩ : ivec3) ∈ offsets d.size := (mem_offsets d.size _).2 ⟨hx, hy, hz⟩
    have hne1 : (⟨sx, sy, sz⟩ : ivec3) ≠ ⟨0, 0, 0⟩ := by
      intro hc
      simp only [ivec3.mk.injEq] at hc
      exact hne hc
    refine ⟨repair_segments_value K hW hD chunks d state x y z horth _ hs hne1 hload,
      segment_to_int_eq_sum sx sy sz, ?_⟩
    rw [Ne, segment_to_int_eq_zero]
    omega
  · exact repair_segments_keeps K hW hD chunks d state x y z ⟨x, y, z⟩
      (origin_not_segment_cell _ _ _ horth)

/-- Instance of C13: `repair_segments` for the beam at `(5, 0, 5)` with flags 7 writes the
segment `(6, 0, 5)` with segment code 1 and leaves the origin cell as it was. -/
theorem repair_segments_writes_witness :
    ((0 < demo_constants.CHUNK_W ∧ 0 < demo_constants.CHUNK_D) ∧
      (demo_beam.rotations.variants 0).orthonormal) ∧
    get demo_constants
      (repair_segments demo_constants demo_world_origin demo_beam ⟨0, 0, 7⟩ 5 0 5) 6 0 5
      = some ⟨1, ⟨0, 1, 7⟩⟩ ∧
    get demo_constants
      (repair_segments demo_constants demo_world_origin demo_beam ⟨0, 0, 7⟩ 5 0 5) 5 0 5
      = get demo_constants demo_world_origin 5 0 5 :=
  ⟨⟨⟨by decide, by decide⟩, by decide⟩,
    ((repair_segments_writes demo_constants (by decide) (by decide) demo_world_origin
      demo_beam ⟨0, 0, 7⟩ 5 0 5 (by decide)).1 1 0 0 (by decide) (by decide) (by decide)
      (by decide) (by decide)).1,
    (repair_segments_writes demo_constants (by decide) (by decide) demo_world_origin
      demo_beam ⟨0, 0, 7⟩ 5 0 5 (by decide)).2⟩

/-- C14: `erase_segments` on a block with orthonormal axes sets to empty (id 0, default
state) exactly the cells of the offsets within `def.size` other than `(0, 0, 0)` under the
rotation `state.rotation`: every loaded segment cell ends up empty, every other position is
unchanged, and the origin cell is no segment cell. Consequently `erase_segments` applied
after `repair_segments` with the same arguments leaves every loaded segment cell empty. -/
theorem erase_segments_clears (K : Constants) (hW : 0 < K.CHUNK_W) (hD : 0 < K.CHUNK_D)
    (chunks : Storage) (d : Block) (state : blockstate) (x y z : Int)
    (horth : (d.rotations.variants state.rotation).orthonormal) :
    (∀ q ∈ segment_cells ⟨x, y, z⟩ (d.rotations.variants state.rotation) d.size,
      (get K chunks q.x q.y q.z).isSome = true →
      get K (erase_segments K chunks d state x y z) q.x q.y q.z
        = some ⟨0, blockstate.zero⟩) ∧
    (∀ q, q ∉ segment_cells ⟨x, y, z⟩ (d.rotations.variants state.rotation) d.size →
      get K (erase_segments K chunks d state x y z) q.x q.y q.z = get K chunks q.x q.y q.z) ∧
    ((⟨x, y, z⟩ : ivec3) ∉
        segment_cells ⟨x, y, z⟩ (d.rotations.variants state.rotation) d.size ∧
      get K (erase_segments K chunks d state x y z) x y z = get K chunks x y z) ∧
    (∀ q ∈ segment_cells ⟨x, y, z⟩ (d.rotations.variants state.rotation) d.size,
      (get K chunks q.x q.y q.z).isSome = true →
      get K (erase_segments K (repair_segments K chunks d state x y z) d state x y z)
        q.x q.y q.z = some ⟨0, blockstate.zero⟩) := by
  have horig := origin_not_segment_cell ⟨x, y, z⟩ (d.rotations.variants state.rotation)
    d.size horth
  refine ⟨?_, ?_, ⟨horig, ?_⟩, ?_⟩
  · intro q hq hload
    exact erase_segments_value K hW hD chunks d state x y z q hq hload
  · intro q hq
    exact erase_segments_keeps K hW hD chunks d state x y z q hq
  · exact erase_segments_keeps K hW hD chunks d state x y z ⟨x, y, z⟩ horig
  · intro q hq hload
    apply erase_segments_value K hW hD _ d state x y z q hq
    rw [repair_segments_isSome K hW hD]
    exact hload

/-- Instance of C14: erasing the segments of the beam at `(5, 0, 5)` empties `(6, 0, 5)`
and leaves the origin cell as it was. -/
theorem erase_segments_clears_witness :
    ((0 < demo_constants.CHUNK_W ∧ 0 < demo_constants.CHUNK_D) ∧
      (demo_beam.rotations.variants 0).orthonormal) ∧
    get demo_constants (erase_segments demo_constants demo_world demo_beam ⟨0, 0, 0⟩ 5 0 5)
      6 0 5 = some ⟨0, blockstate.zero⟩ ∧
    get demo_constants (erase_segments demo_constants demo_world demo_beam ⟨0, 0, 0⟩ 5 0 5)
      5 0 5 = get demo_constants demo_world 5 0 5 :=
  ⟨⟨⟨by decide, by decide⟩, by decide⟩,
    (erase_segments_clears demo_constants (by decide) (by decide) demo_world demo_beam
      ⟨0, 0, 0⟩ 5 0 5 (by decide)).1 ⟨6, 0, 5⟩ (by decide) (by decide),
    (erase_segments_clears demo_constants (by decide) (by decide) demo_world demo_beam
      ⟨0, 0, 0⟩ 5 0 5 (by decide)).2.2.1.2⟩

/-- C17: the backward walk of `seek_origin` is bounded by the footprint size. On a
well-formed extended block, `seek_origin` started at the footprint cell with offset
`(sx, sy, sz)`, with that cell's stored state and fuel above `max(sx, sy, sz)`, returns the
origin after exactly `max(sx, sy, sz)` backward steps, and that number is less than the
largest dimension of `def.size`. -/
theorem seek_origin_walk_length (K : Constants) (chunks : Storage) (d : Block) (id rot : Nat)
    (origin : ivec3) (fuel : Nat) (sx sy sz : Int)
    (hwf : well_formed K chunks d id rot origin)
    (hx : 0 ≤ sx ∧ sx < d.size.x) (hy : 0 ≤ sy ∧ sy < d.size.y) (hz : 0 ≤ sz ∧ sz < d.size.z)
    (hfuel : max sx (max sy sz) < fuel) :
    (∃ vox,
      get K chunks (segment_pos origin (d.rotations.variants rot) ⟨sx, sy, sz⟩).x
        (segment_pos origin (d.rotations.variants rot) ⟨sx, sy, sz⟩).y
        (segment_pos origin (d.rotations.variants rot) ⟨sx, sy, sz⟩).z = some vox ∧
      seek_origin_count K chunks (d.rotations.variants vox.state.rotation) fuel
        (segment_pos origin (d.rotations.variants rot) ⟨sx, sy, sz⟩) vox.state.segment 0
        = some (origin, (max sx (max sy sz)).toNat) ∧
      seek_origin K chunks fuel (segment_pos origin (d.rotations.variants rot) ⟨sx, sy, sz⟩)
        d vox.state = some origin) ∧
    max sx (max sy sz) < max d.size.x (max d.size.y d.size.z) := by
  have hs : (⟨sx, sy, sz⟩ : ivec3) ∈ offsets d.size := (mem_offsets d.size _).2 ⟨hx, hy, hz⟩
  have hlaid := well_formed_laid K chunks d id rot origin hwf
  obtain ⟨vox, hv, _, hrot, hseg⟩ := hwf _ hs
  have hcount := seek_origin_count_laid K chunks origin (d.rotations.variants rot) d.size
    hlaid fuel ⟨sx, sy, sz⟩ 0 hs hfuel
  simp only [Nat.zero_add] at hcount
  refine ⟨⟨vox, hv, ?_, ?_⟩, by omega⟩
  · rw [hrot, hseg]
    exact hcount
  · unfold seek_origin
    rw [hrot, hseg, ← seek_origin_count_fst K chunks _ fuel _ _ 0, hcount]
    rfl

/-- Instance of C17: from the segment `(6, 0, 5)` of the beam (offset `(1, 0, 0)`) the walk
takes one step. -/
theorem seek_origin_walk_length_witness :
    well_formed demo_constants demo_world demo_beam 1 0 ⟨5, 0, 5⟩ ∧
    ((∃ vox,
      get demo_constants demo_world 6 0 5 = some vox ∧
      seek_origin_count demo_constants demo_world
        (demo_beam.rotations.variants vox.state.rotation) 2 ⟨6, 0, 5⟩ vox.state.segment 0
        = some (⟨5, 0, 5⟩, 1) ∧
      seek_origin demo_constants demo_world 2 ⟨6, 0, 5⟩ demo_beam vox.state
        = some ⟨5, 0, 5⟩) ∧
    max (1 : Int) (max 0 0) < max demo_beam.size.x (max demo_beam.size.y demo_beam.size.z)) :=
  ⟨by decide,
    seek_origin_walk_length demo_constants demo_world demo_beam 1 0 ⟨5, 0, 5⟩ 2 1 0 0
      (by decide) (by decide) (by decide) (by decide) (by decide)⟩

end blocks_agent

namespace world_generator

/-! ## Prototype levels over `update` and `generate` -/

/-- The model does advance: on a fresh generator `update(0, 0, 0)` brings the prototype of
`(0, 0)` from `VOID` to `STRUCTURES`, and a later `update(5, 5, 0)` leaves it there. -/
theorem update_reaches_structures :
    level_at demo_generator (0, 0) = .VOID ∧
    level_at (step demo_generator (Call.update 0 0 0)) (0, 0) = .STRUCTURES ∧
    level_at (step (step demo_generator (Call.update 0 0 0)) (Call.update 5 5 0)) (0, 0)
      = .STRUCTURES :=
  ⟨by decide, by decide, by decide⟩

end world_generator

namespace item_stack

/-! ## `ItemStack::move` -/

end item_stack

namespace libutf8

/-! ## `utf8.decode` after `utf8.encode` -/

/-- C20 (failing input): for a table, `l_decode` returns the content of a freshly
allocated buffer of the table's length and never reads the table. So
`decode(encode("a", true))` and `decode(encode("b", true))` are the same string and cannot
both be the string that was encoded. The bytearray path does return the string when the
constructed bytearray has the requested size. -/
theorem l_decode_table_ignores_items (buffer_new bytearray_new : Nat → List Nat) :
    (∀ s : List Nat, l_decode buffer_new (l_encode bytearray_new s true)
      = .string ((buffer_new s.length).take s.length)) ∧
    l_decode buffer_new (l_encode bytearray_new [97] true)
      = l_decode buffer_new (l_encode bytearray_new [98] true) ∧
    ¬ (l_decode buffer_new (l_encode bytearray_new [97] true) = .string [97] ∧
      l_decode buffer_new (l_encode bytearray_new [98] true) = .string [98]) ∧
    (∀ s : List Nat, (bytearray_new s.length).length = s.length →
      l_decode buffer_new (l_encode bytearray_new s false) = .string s) := by
  refine ⟨?_, rfl, ?_, ?_⟩
  · intro s
    simp only [l_encode, l_decode, if_true, List.length_map]
  · rintro ⟨h1, h2⟩
    have h3 : l_decode buffer_new (l_encode bytearray_new [97] true)
        = l_decode buffer_new (l_encode bytearray_new [98] true) := rfl
    rw [h1, h2] at h3
    exact absurd h3 (by decide)
  · intro s hs
    simp only [l_encode, l_decode, Bool.false_eq_true, if_false, memcpy, hs,
      LuaValue.string.injEq]
    rw [List.take_append_eq_append_take, List.take_length, Nat.sub_self, List.take_zero,
      List.append_nil]

end libutf8
